import Mathlib

/-!
# STOMP client protocol engine (`StompProtocol.cpp`)

A shallow embedding of `StompProtocol::processInput` and
`StompProtocol::processServerFrame` together with the properties of the
subscription registry, the receipt tracker, the event store and the summary
report that the design document states about them.

Conventions of the embedding.

* `std::string` is `String`; character-level work is done on `String.data`.
* `std::map<K, V>` is a key-ordered association list (`StdMap.insert` keeps the
  keys ascending and unique, `operator[]` on a missing key is `getD` with the
  default value).
* `int` is `Int`; the two counters are taken as unbounded, `std::stoi` checks the
  32-bit range and throws outside it.
* A thrown C++ exception is `Except.error`.
* `std::cout` and the summary `std::ofstream` are returned as text.
* The mutex is not modelled: every operation is one atomic step.
* `std::sort` is a field of `Env`; the general properties assume only its
  contract (`SortContract`), and `StdSort.sort` is the implementation of
  libstdc++, used where the order of tied events matters.
-/

namespace Stomp

/-! ## `std::map` -/

/-- The key comparison `std::less<K>` of a map. -/
class KeyLess (K : Type) where
  less : K → K → Bool

/-- `std::string::operator<`: lexicographic comparison of the characters. -/
instance : KeyLess String := ⟨fun a b => decide (a.data < b.data)⟩

/-- `operator<` on `int`. -/
instance : KeyLess Int := ⟨fun a b => decide (a < b)⟩

namespace StdMap

variable {K V : Type} [DecidableEq K] [KeyLess K]

/-- `m.find(k)`: the value stored under `k`, if any. -/
def find (k : K) : List (K × V) → Option V
  | [] => none
  | (k', v) :: rest => if k' = k then some v else find k rest

/-- `m[k] = v`: replaces the value of an existing key, otherwise inserts the
pair at its place in key order. -/
def insert (k : K) (v : V) : List (K × V) → List (K × V)
  | [] => [(k, v)]
  | (k', v') :: rest =>
    if k' = k then (k, v) :: rest
    else if KeyLess.less k k' then (k, v) :: (k', v') :: rest
    else (k', v') :: insert k v rest

/-- `m.erase(k)`. -/
def erase (k : K) : List (K × V) → List (K × V)
  | [] => []
  | (k', v) :: rest => if k' = k then erase k rest else (k', v) :: erase k rest

/-- `m.count(k) != 0`, that is `m.find(k) != m.end()`. -/
def contains (k : K) (m : List (K × V)) : Bool := (find k m).isSome

end StdMap

/-! ## Events -/

/-- Modelled from the spec: the `Event` class of `event.h` (not among the source
files), with the fields the getters used by `StompProtocol.cpp` return: both
team names, the event name, the integer timestamp, the three update mappings
and the description. -/
structure Event where
  team_a_name : String
  team_b_name : String
  name : String
  time : Int
  game_updates : List (String × String)
  team_a_updates : List (String × String)
  team_b_updates : List (String × String)
  description : String
  deriving DecidableEq, Repr

/-- Modelled from the spec: the `names_and_events` record of `event.h` returned
by `parseEventsFile`: both team names and the events in file order. -/
structure names_and_events where
  team_a_name : String
  team_b_name : String
  events : List Event
  deriving DecidableEq, Repr

/-- The exceptions that can leave the two entry points. -/
inductive StompException where
  | invalid_argument
  | out_of_range
  | parse_error
  deriving DecidableEq, Repr

/-- The collaborators of the protocol engine that live outside
`StompProtocol.cpp`.

* `parseEventsFile path` is the event-file reader of `event.cpp`; `none` stands
  for a reader that throws.
* `parseEvent body` is the constructor `Event(const std::string&)`; `none`
  stands for a constructor that throws.
* `sort` is `std::sort` called with the comparator
  `a.get_time() < b.get_time()`. -/
structure Env where
  parseEventsFile : String → Option names_and_events
  parseEvent : String → Option Event
  sort : List Event → List Event

/-- The contract of `std::sort` for the comparator `a.get_time() < b.get_time()`:
the result is a rearrangement of the input in which no later element compares
less than an earlier one. Nothing is promised about the order of elements that
compare equivalent. -/
def SortContract (sort : List Event → List Event) : Prop :=
  ∀ l, (sort l).Perm l ∧ (sort l).Pairwise (fun a b => ¬ b.time < a.time)

/-! ## Protocol state -/

/-- The data members of `StompProtocol`; `shouldContinue` is the flag the
constructor receives by reference. -/
structure StompProtocol where
  gameReports : List (String × List (String × List Event))
  userName : String
  shouldContinue : Bool
  subscriptionCounter : Int
  receiptCounter : Int
  channelToSubId : List (String × Int)
  receiptToCommand : List (Int × String)
  deriving DecidableEq, Repr

/-- The constructor `StompProtocol(loggedIn)`. -/
def StompProtocol.init (loggedIn : Bool) : StompProtocol :=
  { gameReports := [], userName := "", shouldContinue := loggedIn,
    subscriptionCounter := 0, receiptCounter := 0,
    channelToSubId := [], receiptToCommand := [] }

/-! ## Reading the command line -/

/-- `std::isspace` in the "C" locale. -/
def isspace (c : Char) : Bool :=
  c = ' ' || c = '\t' || c = '\n' || c = '\x0b' || c = '\x0c' || c = '\r'

/-- The successive results of `ss >> token` on the characters still to read;
`cur` holds the characters of the token being read, last one first. -/
def tokensAux : List Char → List Char → List String
  | [], cur => if cur = [] then [] else [String.mk cur.reverse]
  | c :: cs, cur =>
    if isspace c then
      (if cur = [] then tokensAux cs [] else String.mk cur.reverse :: tokensAux cs [])
    else tokensAux cs (c :: cur)

/-- All whitespace-delimited tokens of a command line, in order. -/
def tokens (line : String) : List String := tokensAux line.data []

/-- `ss >> target` for the `i`-th extraction: the token when there is one,
otherwise the target keeps the value it had. -/
def extract (toks : List String) (i : Nat) (old : String) : String :=
  toks[i]?.getD old

/-! ## `processInput` -/

/-- `std::to_string(int)`. -/
def to_string (n : Int) : String := toString n

/-- The frame pushed by `join`. The literal `"\n\n\0"` is a C string, which
ends at its first NUL, so what is appended is `"\n\n"`. -/
def subscribeFrame (gameName : String) (subId recId : Int) : String :=
  "SUBSCRIBE\ndestination:/" ++ gameName ++ "\nid:" ++ to_string subId ++
    "\nreceipt:" ++ to_string recId ++ "\n\n"

/-- The frame pushed by `exit`. -/
def unsubscribeFrame (subId recId : Int) : String :=
  "UNSUBSCRIBE\nid:" ++ to_string subId ++ "\nreceipt:" ++ to_string recId ++ "\n\n"

/-- The frame pushed by `logout`. -/
def disconnectFrame (recId : Int) : String :=
  "DISCONNECT\nreceipt:" ++ to_string recId ++ "\n\n"

/-- The lines `"\t" + key + ": " + val + "\n"` of one update mapping. -/
def updateLines (m : List (String × String)) : String :=
  m.foldl (fun acc kv => acc ++ ("\t" ++ kv.1 ++ ": " ++ kv.2 ++ "\n")) ""

/-- The SEND frame built by `report` for one event. -/
def sendFrame (userName : String) (n_e : names_and_events) (event : Event) : String :=
  "SEND\n" ++
  ("destination:/" ++ n_e.team_a_name ++ "_" ++ n_e.team_b_name ++ "\n\n") ++
  ("user: " ++ userName ++ "\n") ++
  ("team a: " ++ event.team_a_name ++ "\n") ++
  ("team b: " ++ event.team_b_name ++ "\n") ++
  ("event name: " ++ event.name ++ "\n") ++
  ("time: " ++ to_string event.time ++ "\n") ++
  "general game updates:\n" ++ updateLines event.game_updates ++
  "team a updates:\n" ++ updateLines event.team_a_updates ++
  "team b updates:\n" ++ updateLines event.team_b_updates ++
  ("description:\n" ++ event.description ++ "\n")

/-- `gameReports[gameName][user].push_back(event)`; both levels are created
when missing. -/
def pushEvent (gameName user : String) (event : Event)
    (store : List (String × List (String × List Event))) :
    List (String × List (String × List Event)) :=
  let users := (StdMap.find gameName store).getD []
  let bucket := (StdMap.find user users).getD []
  StdMap.insert gameName (StdMap.insert user (bucket ++ [event]) users) store

/-- The bucket `gameReports[gameName][user]` when both levels exist. -/
def bucketOf (gameName user : String)
    (store : List (String × List (String × List Event))) : Option (List Event) :=
  (StdMap.find gameName store).bind (StdMap.find user)

/-- The loop of `report` over the events of the file: each event is stored and
its frame is pushed. -/
def reportLoop (userName gameName : String) (n_e : names_and_events) :
    List Event → List (String × List (String × List Event)) → List String →
    List (String × List (String × List Event)) × List String
  | [], store, frames => (store, frames)
  | event :: rest, store, frames =>
    reportLoop userName gameName n_e rest
      (pushEvent gameName userName event store)
      (frames ++ [sendFrame userName n_e event])

/-- The loop `for (key, val) : m  acc[key] = val`. -/
def foldUpdates (m : List (String × String)) (acc : List (String × String)) :
    List (String × String) :=
  m.foldl (fun a kv => StdMap.insert kv.1 kv.2 a) acc

/-- The lines `key << ": " << val << "\n"` of one accumulator. -/
def statLines (m : List (String × String)) : String :=
  m.foldl (fun acc kv => acc ++ (kv.1 ++ ": " ++ kv.2 ++ "\n")) ""

/-- One entry of the "Game event reports:" block. -/
def eventReport (event : Event) : String :=
  to_string event.time ++ " - " ++ event.name ++ ":\n\n" ++ event.description ++ "\n\n"

/-- The "Game event reports:" block. -/
def eventReports (events : List Event) : String :=
  "Game event reports:\n" ++ events.foldl (fun acc e => acc ++ eventReport e) ""

/-- Everything `summary` writes before the "Game event reports:" block, for the
sorted copy `events` of the bucket. -/
def summaryStats (events : List Event) : String :=
  let header := match events with
    | [] => ""
    | e :: _ => e.team_a_name ++ " vs " ++ e.team_b_name ++ "\n"
  let general_stats := events.foldl (fun a e => foldUpdates e.game_updates a) []
  let team_a_stats := events.foldl (fun a e => foldUpdates e.team_a_updates a) []
  let team_b_stats := events.foldl (fun a e => foldUpdates e.team_b_updates a) []
  let teamA := match events with
    | [] => "Team A stats:\n"
    | e :: _ => e.team_a_name ++ " stats:\n"
  let teamB := match events with
    | [] => "Team B stats:\n"
    | e :: _ => e.team_b_name ++ " stats:\n"
  header ++ "Game stats:\n" ++
  "General stats:\n" ++ statLines general_stats ++
  teamA ++ statLines team_a_stats ++
  teamB ++ statLines team_b_stats

/-- The whole text `summary` writes for the sorted copy `events`. -/
def summaryText (events : List Event) : String :=
  summaryStats events ++ eventReports events

/-- What one call of `processInput` leaves behind: the new state, the returned
frames, and the file written by `summary` (path and content), if any. -/
structure InputResult where
  state : StompProtocol
  frames : List String
  written : Option (String × String)
  deriving DecidableEq, Repr

/-- `StompProtocol::processInput(line)`. -/
def processInput (env : Env) (s : StompProtocol) (line : String) :
    Except StompException InputResult :=
  let toks := tokens line
  let command := extract toks 0 ""
  if command = "login" then
    .ok { state := { s with userName := extract toks 2 s.userName }, frames := [], written := none }
  else if command = "join" then
    let gameName := extract toks 1 ""
    let subId := s.subscriptionCounter
    let recId := s.receiptCounter
    .ok { state := { s with
            subscriptionCounter := s.subscriptionCounter + 1
            receiptCounter := s.receiptCounter + 1
            channelToSubId := StdMap.insert gameName subId s.channelToSubId
            receiptToCommand :=
              StdMap.insert recId ("Joined channel " ++ gameName) s.receiptToCommand },
          frames := [subscribeFrame gameName subId recId], written := none }
  else if command = "exit" then
    let gameName := extract toks 1 ""
    match StdMap.find gameName s.channelToSubId with
    | some subId =>
      let recId := s.receiptCounter
      .ok { state := { s with
              receiptCounter := s.receiptCounter + 1
              receiptToCommand :=
                StdMap.insert recId ("Exited channel " ++ gameName) s.receiptToCommand
              channelToSubId := StdMap.erase gameName s.channelToSubId },
            frames := [unsubscribeFrame subId recId], written := none }
    | none => .ok { state := s, frames := [], written := none }
  else if command = "logout" then
    let recId := s.receiptCounter
    .ok { state := { s with
            receiptCounter := s.receiptCounter + 1
            receiptToCommand := StdMap.insert recId "DISCONNECT" s.receiptToCommand },
          frames := [disconnectFrame recId], written := none }
  else if command = "report" then
    let filePath := extract toks 1 ""
    match env.parseEventsFile filePath with
    | none => .error .parse_error
    | some n_e =>
      let gameName := n_e.team_a_name ++ "_" ++ n_e.team_b_name
      let r := reportLoop s.userName gameName n_e n_e.events s.gameReports []
      .ok { state := { s with gameReports := r.1 }, frames := r.2, written := none }
  else if command = "summary" then
    let gameName := extract toks 1 ""
    let user := extract toks 2 ""
    let file := extract toks 3 ""
    match bucketOf gameName user s.gameReports with
    | some bucket =>
      .ok { state := s, frames := [], written := some (file, summaryText (env.sort bucket)) }
    | none => .ok { state := s, frames := [], written := none }
  else .ok { state := s, frames := [], written := none }

/-! ## Reading a server frame -/

/-- The characters `std::getline` stores and the characters left in the stream
after it; the newline that ends the line is consumed and not stored. -/
def readLine : List Char → List Char × List Char
  | [] => ([], [])
  | c :: cs => if c = '\n' then ([], cs) else ((readLine cs).1.cons c, (readLine cs).2)

/-- `std::getline(ss, line)`: fails (`none`) exactly when nothing is left to
read. -/
def getline : List Char → Option (List Char × List Char)
  | [] => none
  | c :: cs => some (readLine (c :: cs))

/-- The body of the header loop for one line: a line with a colon sets
`headers[key] = value`, split at the first colon; a line without one is
skipped. -/
def addHeader (line : List Char) (headers : List (String × String)) :
    List (String × String) :=
  if ':' ∈ line then
    StdMap.insert (String.mk (line.takeWhile (fun c => c ≠ ':')))
      (String.mk ((line.dropWhile (fun c => c ≠ ':')).drop 1)) headers
  else headers

/-- The header loop `while (getline(ss, line) && !line.empty() && line != "\r")`.
It returns the header map and the characters left in the stream. Each round
reads at least one character, so `fuel = ss.length` rounds always suffice
(`headerLoop_fuel`). -/
def headerLoop : Nat → List Char → List (String × String) →
    List (String × String) × List Char
  | 0, ss, headers => (headers, ss)
  | fuel + 1, ss, headers =>
    match getline ss with
    | none => (headers, ss)
    | some (line, rest) =>
      if line = [] ∨ line = ['\r'] then (headers, rest)
      else headerLoop fuel rest (addHeader line headers)

/-- A frame as `processServerFrame` reads it: the command line, the header map
and the rest of the stream (the body). -/
structure Decoded where
  command : String
  headers : List (String × String)
  body : String
  deriving DecidableEq, Repr

/-- Steps 1 and 2 of `processServerFrame`; `none` when the command line cannot
be read. -/
def decode (frame : String) : Option Decoded :=
  match getline frame.data with
  | none => none
  | some (command, ss) =>
    let r := headerLoop ss.length ss []
    some { command := String.mk command, headers := r.1, body := String.mk r.2 }

/-- `headers[key]` read as a value: the stored value, or the empty string the
lookup inserts. -/
def header (key : String) (headers : List (String × String)) : String :=
  (StdMap.find key headers).getD ""

/-- `std::stoi(str)`: leading whitespace and one optional sign are skipped, the
longest run of decimal digits is converted; `invalid_argument` when there is no
digit, `out_of_range` when the value does not fit a 32-bit `int`. -/
def stoi (str : String) : Except StompException Int :=
  let cs := str.data.dropWhile isspace
  let signed : Bool × List Char := match cs with
    | '-' :: r => (true, r)
    | '+' :: r => (false, r)
    | r => (false, r)
  let digits := signed.2.takeWhile Char.isDigit
  if digits = [] then .error .invalid_argument
  else
    let magnitude : Int := digits.foldl (fun a c => 10 * a + ((c.toNat - 48 : Nat) : Int)) 0
    let value : Int := if signed.1 then -magnitude else magnitude
    if value < -2147483648 ∨ 2147483647 < value then .error .out_of_range
    else .ok value

/-- `str.find(pattern) != std::string::npos` on character lists. -/
def containsSub (pattern : List Char) : List Char → Bool
  | [] => pattern.isPrefixOf []
  | c :: cs => pattern.isPrefixOf (c :: cs) || containsSub pattern cs

/-- The game name `MESSAGE` derives from the destination header: the part after
the last `/` when there is one, the whole value otherwise. -/
def gameNameOf (destination : String) : String :=
  if '/' ∈ destination.data then
    String.mk (destination.data.reverse.takeWhile (fun c => c ≠ '/')).reverse
  else destination

/-- What one call of `processServerFrame` leaves behind: the new state and the
text sent to `std::cout`. -/
structure ServerResult where
  state : StompProtocol
  console : String
  deriving DecidableEq, Repr

/-- `StompProtocol::processServerFrame(frame)`. -/
def processServerFrame (env : Env) (s : StompProtocol) (frame : String) :
    Except StompException ServerResult :=
  match decode frame with
  | none => .ok { state := s, console := "" }
  | some d =>
    if d.command = "CONNECTED" then
      .ok { state := s, console := "Login successful\n" }
    else if d.command = "ERROR" then
      .ok { state := { s with shouldContinue := false },
            console := "Error received: " ++ header "message" d.headers ++ "\n" ++
              d.body ++ "\n" }
    else if d.command = "RECEIPT" then
      let receiptId := header "receipt-id" d.headers
      match stoi receiptId with
      | .error e => .error e
      | .ok r =>
        match StdMap.find r s.receiptToCommand with
        | some originalCmd =>
          if containsSub "DISCONNECT".data originalCmd.data then
            .ok { state := { s with shouldContinue := false }, console := "" }
          else .ok { state := s, console := originalCmd ++ "\n" }
        | none => .ok { state := s, console := "" }
    else if d.command = "MESSAGE" then
      let gameName := gameNameOf (header "destination" d.headers)
      let reportingUser := header "user" d.headers
      if reportingUser = s.userName then .ok { state := s, console := "" }
      else
        match env.parseEvent d.body with
        | some event =>
          .ok { state := { s with
                  gameReports := pushEvent gameName reportingUser event s.gameReports },
                console := "" }
        | none => .ok { state := s, console := "" }
    else .ok { state := s, console := "" }

/-! ## Sessions -/

/-- The command thread: the lines are fed to `processInput` one after the other;
an exception ends the session. The result is the final state and all frames
returned, in order. -/
def runInputs (env : Env) : StompProtocol → List String →
    Except StompException (StompProtocol × List String)
  | s, [] => .ok (s, [])
  | s, line :: rest =>
    match processInput env s line with
    | .error e => .error e
    | .ok r =>
      match runInputs env r.state rest with
      | .error e => .error e
      | .ok (s', frames) => .ok (s', r.frames ++ frames)

/-- The frames the command thread hands to the transport before the session
ends, whether it ends normally or by an exception. -/
def framesSent (env : Env) : StompProtocol → List String → List String
  | _, [] => []
  | s, line :: rest =>
    match processInput env s line with
    | .error _ => []
    | .ok r => r.frames ++ framesSent env r.state rest

/-! ## Definitions used to state the properties -/

/-- The command line of a frame on the wire, read the way `processServerFrame`
reads it. -/
def verbOf (frame : String) : Option String :=
  (decode frame).map (fun d => d.command)

/-- The value a frame on the wire carries for the header `key`. -/
def headerOf (key : String) (frame : String) : Option String :=
  (decode frame).bind (fun d => StdMap.find key d.headers)

/-- The SUBSCRIBE frames among `frames`, in order. -/
def subscribeFramesOf (frames : List String) : List String :=
  frames.filter (fun f => verbOf f = some "SUBSCRIBE")

/-- The first token of a command line. -/
def commandOf (line : String) : String := extract (tokens line) 0 ""

/-- A character that is neither a line break nor a colon. -/
def plainChar (c : Char) : Prop := c ≠ '\n' ∧ c ≠ '\r' ∧ c ≠ ':'

/-- The transport-reader thread: the frames are fed to `processServerFrame` one
after the other; an exception ends the session. The result is the final state
and everything printed. -/
def runFrames (env : Env) : StompProtocol → List String →
    Except StompException (StompProtocol × String)
  | s, [] => .ok (s, "")
  | s, frame :: rest =>
    match processServerFrame env s frame with
    | .error e => .error e
    | .ok r =>
      match runFrames env r.state rest with
      | .error e => .error e
      | .ok (s', out) => .ok (s', r.console ++ out)

/-- An insertion sort by timestamp that keeps tied events in their order; one
function that meets `SortContract`. -/
def sortByTime (l : List Event) : List Event :=
  l.insertionSort (fun a b => a.time ≤ b.time)

/-- An event of the game `chelsea` against `arsenal`. -/
def sampleEvent (time : Int) (name : String) : Event :=
  { team_a_name := "chelsea", team_b_name := "arsenal", name := name, time := time,
    game_updates := [("active", "true")], team_a_updates := [("goals", name)],
    team_b_updates := [], description := name ++ "!" }

/-- An event file with two events, timestamped 90 then 45. -/
def sampleFile : names_and_events :=
  { team_a_name := "chelsea", team_b_name := "arsenal",
    events := [sampleEvent 90 "late", sampleEvent 45 "early"] }

/-- An event file with two events of the same timestamp. -/
def tiedFile : names_and_events :=
  { team_a_name := "chelsea", team_b_name := "arsenal",
    events := [sampleEvent 10 "first", sampleEvent 10 "second"] }

/-- A file system holding `events.txt` and `tied.txt`, an event codec that
rejects every body, and the given `std::sort`. -/
def sampleEnv (sort : List Event → List Event) : Env :=
  { parseEventsFile := fun path =>
      if path = "events.txt" then some sampleFile
      else if path = "tied.txt" then some tiedFile
      else none,
    parseEvent := fun _ => none,
    sort := sort }

/-- The state of a session of user `alice`. -/
def aliceState : StompProtocol :=
  { StompProtocol.init true with userName := "alice" }

/-- The state a fresh protocol is in after the command `join a`. -/
def joinedState : StompProtocol :=
  { StompProtocol.init true with
    subscriptionCounter := 1, receiptCounter := 1,
    channelToSubId := [("a", 0)], receiptToCommand := [(0, "Joined channel a")] }

/-- The state a fresh protocol is in after the command `join DISCONNECT`. -/
def joinedDisconnectState : StompProtocol :=
  { StompProtocol.init true with
    subscriptionCounter := 1, receiptCounter := 1,
    channelToSubId := [("DISCONNECT", 0)],
    receiptToCommand := [(0, "Joined channel DISCONNECT")] }

/-- The state of `alice`'s session after `report events.txt`. -/
def reportedState : StompProtocol :=
  { aliceState with
    gameReports :=
      [("chelsea_arsenal", [("alice", [sampleEvent 90 "late", sampleEvent 45 "early"])])] }

/-- The frames among `frames` that ask for a receipt: SUBSCRIBE, UNSUBSCRIBE
and DISCONNECT, in order. -/
def receiptFramesOf (frames : List String) : List String :=
  frames.filter (fun f =>
    verbOf f = some "SUBSCRIBE" ∨ verbOf f = some "UNSUBSCRIBE" ∨ verbOf f = some "DISCONNECT")

/-- A file system holding `events.txt` and `tied.txt`, an event codec that
reads the body `goal` as an event timestamped 10 and rejects every other body,
and the given `std::sort`. -/
def codecEnv (sort : List Event → List Event) : Env :=
  { sampleEnv sort with
    parseEvent := fun body => if body = "goal" then some (sampleEvent 10 "goal") else none }

/-- The accumulator `summary` builds from one of the three update mappings:
every event in turn writes each of its pairs with `acc[key] = val`. -/
def statsOf (updates : Event → List (String × String)) (events : List Event) :
    List (String × String) :=
  events.foldl (fun a e => foldUpdates (updates e) a) []

/-- The value of the last pair written for `key` in a sequence of writes. -/
def lastWrite (key : String) (writes : List (String × String)) : Option String :=
  StdMap.find key writes.reverse

/-- The keys of a map come in strictly ascending order of `std::string`, the
order in which a `std::map` is iterated. -/
def KeysAscending (m : List (String × String)) : Prop :=
  (m.map Prod.fst).Pairwise (fun a b => a.data < b.data)

/-- One call of an entry point of the protocol: a command line given to
`processInput` or a frame given to `processServerFrame`. -/
inductive Call where
  | input (line : String)
  | frame (frame : String)
  deriving DecidableEq, Repr

/-- A session: the calls are made one after the other, in any interleaving of
the two entry points; an exception ends the session. -/
def runCalls (env : Env) : StompProtocol → List Call → Except StompException StompProtocol
  | s, [] => .ok s
  | s, Call.input line :: rest =>
    match processInput env s line with
    | .error e => .error e
    | .ok r => runCalls env r.state rest
  | s, Call.frame frame :: rest =>
    match processServerFrame env s frame with
    | .error e => .error e
    | .ok r => runCalls env r.state rest

/-- The bucket `alice` holds after `report events.txt`. -/
def reportedBucket : List Event := [sampleEvent 90 "late", sampleEvent 45 "early"]

/-- Every bucket present in the event store holds at least one event. -/
def BucketsNonEmpty (store : List (String × List (String × List Event))) : Prop :=
  ∀ g u bucket, bucketOf g u store = some bucket → bucket ≠ []

/-- A session of `alice`: she logs in, reports `events.txt`, and a report of
`bob` on the same game arrives. -/
def sampleCalls : List Call :=
  [Call.input "login host:7777 alice secret", Call.input "report events.txt",
   Call.frame "MESSAGE\ndestination:/topic/chelsea_arsenal\nuser:bob\n\ngoal"]

/-- The state `sampleCalls` leads to. -/
def sampleCallsState : StompProtocol :=
  { aliceState with
    gameReports :=
      [("chelsea_arsenal",
        [("alice", reportedBucket), ("bob", [sampleEvent 10 "goal"])])] }

/-- A line of the header section of a frame: `key:value`, where the key holds
no colon, or a text without any colon. -/
inductive HeaderLine where
  | pair (key value : List Char)
  | plain (text : List Char)
  deriving DecidableEq, Repr

/-- The characters of a header line. -/
def HeaderLine.text : HeaderLine → List Char
  | .pair key value => key ++ ':' :: value
  | .plain text => text

/-- A header line is a line: it holds no line break, its key or text holds no
colon, and it is neither empty nor a lone carriage return. -/
def HeaderLine.wellFormed : HeaderLine → Bool
  | .pair key value => decide (':' ∉ key ∧ '\n' ∉ key ∧ '\n' ∉ value)
  | .plain text => decide (':' ∉ text ∧ '\n' ∉ text ∧ text ≠ [] ∧ text ≠ ['\r'])

/-- The header section made of the given lines, each ended by a line break. -/
def headerSection (ls : List HeaderLine) : List Char :=
  ls.flatMap (fun l => l.text ++ ['\n'])

/-- What a header line does to the header map: a `key:value` line sets
`headers[key] = value`, another line sets nothing. -/
def HeaderLine.apply (l : HeaderLine) (headers : List (String × String)) :
    List (String × String) :=
  match l with
  | .pair key value => StdMap.insert (String.mk key) (String.mk value) headers
  | .plain _ => headers

/-- The header map the lines describe, each line applied in order. -/
def headersOfLines (ls : List HeaderLine) : List (String × String) :=
  ls.foldl (fun headers l => l.apply headers) []

/-- Three header lines: a destination, a line without a colon, and a pair
whose value holds a colon. -/
def sampleLines : List HeaderLine :=
  [.pair "destination".data "/topic/a_b".data, .plain "nocolon".data,
   .pair "x".data "y:z".data]

/-! ### `std::sort` as libstdc++ implements it

The functions below follow `bits/stl_algo.h` and `bits/stl_heap.h` of GCC's
libstdc++ (`__sort`, `__introsort_loop`, `__unguarded_partition_pivot`,
`__move_median_to_first`, `__unguarded_partition`, `__partial_sort`,
`__final_insertion_sort`, `__insertion_sort`, `__unguarded_linear_insert`, and
the heap helpers). A range is a list with positions counted from 0; an iterator
is a position. -/

namespace StdSort

variable {α : Type} [Inhabited α]

/-- `*(begin + i)`. -/
def elemAt (a : List α) (i : Nat) : α := a.getD i default

/-- `std::iter_swap(begin + i, begin + j)`. -/
def iter_swap (a : List α) (i j : Nat) : List α :=
  (a.set i (elemAt a j)).set j (elemAt a i)

/-- `std::__lg(n)`: the position of the highest set bit of `n`. -/
def lg : Nat → Nat → Nat
  | 0, _ => 0
  | fuel + 1, n => if 2 ≤ n then lg fuel (n / 2) + 1 else 0

/-- `__move_median_to_first(result, x, y, z, comp)`. -/
def move_median_to_first (comp : α → α → Bool) (a : List α) (result x y z : Nat) : List α :=
  if comp (elemAt a x) (elemAt a y) then
    if comp (elemAt a y) (elemAt a z) then iter_swap a result y
    else if comp (elemAt a x) (elemAt a z) then iter_swap a result z
    else iter_swap a result x
  else if comp (elemAt a x) (elemAt a z) then iter_swap a result x
  else if comp (elemAt a y) (elemAt a z) then iter_swap a result z
  else iter_swap a result y

/-- `while (comp(first, pivot)) ++first;`. -/
def scanUp (comp : α → α → Bool) (a : List α) (pivot : Nat) : Nat → Nat → Nat
  | 0, first => first
  | fuel + 1, first =>
    if comp (elemAt a first) (elemAt a pivot) then scanUp comp a pivot fuel (first + 1)
    else first

/-- `while (comp(pivot, last)) --last;`. -/
def scanDown (comp : α → α → Bool) (a : List α) (pivot : Nat) : Nat → Nat → Nat
  | 0, last => last
  | fuel + 1, last =>
    if comp (elemAt a pivot) (elemAt a last) then scanDown comp a pivot fuel (last - 1)
    else last

/-- `__unguarded_partition(first, last, pivot, comp)`: the range after the swaps
and the returned cut. Every round moves `first` up, so `a.length` rounds
suffice. -/
def unguarded_partition (comp : α → α → Bool) (pivot : Nat) :
    Nat → List α → Nat → Nat → List α × Nat
  | 0, a, first, _ => (a, first)
  | fuel + 1, a, first, last =>
    let first₁ := scanUp comp a pivot a.length first
    let last₁ := scanDown comp a pivot a.length (last - 1)
    if first₁ < last₁ then
      unguarded_partition comp pivot fuel (iter_swap a first₁ last₁) (first₁ + 1) last₁
    else (a, first₁)

/-- `__unguarded_partition_pivot(first, last, comp)`. -/
def unguarded_partition_pivot (comp : α → α → Bool) (a : List α) (first last : Nat) :
    List α × Nat :=
  let mid := first + (last - first) / 2
  let a₁ := move_median_to_first comp a first (first + 1) mid (last - 1)
  unguarded_partition comp first a₁.length a₁ (first + 1) last

/-- `__push_heap(first, holeIndex, topIndex, value, comp)`; positions in the
heap are counted from `first`. -/
def push_heap (comp : α → α → Bool) (first topIndex : Nat) (value : α) :
    Nat → List α → Nat → List α
  | 0, a, holeIndex => a.set (first + holeIndex) value
  | fuel + 1, a, holeIndex =>
    let parent := (holeIndex - 1) / 2
    if topIndex < holeIndex ∧ comp (elemAt a (first + parent)) value = true then
      push_heap comp first topIndex value fuel
        (a.set (first + holeIndex) (elemAt a (first + parent))) parent
    else a.set (first + holeIndex) value

/-- The first loop of `__adjust_heap`: the hole moves down to the larger child.
It returns the range, the hole and `secondChild`. -/
def sift_down (comp : α → α → Bool) (first len : Nat) :
    Nat → List α → Nat → Nat → List α × Nat × Nat
  | 0, a, holeIndex, secondChild => (a, holeIndex, secondChild)
  | fuel + 1, a, holeIndex, secondChild =>
    if secondChild < (len - 1) / 2 then
      let child := 2 * (secondChild + 1)
      let child₁ :=
        if comp (elemAt a (first + child)) (elemAt a (first + (child - 1))) then child - 1
        else child
      sift_down comp first len fuel
        (a.set (first + holeIndex) (elemAt a (first + child₁))) child₁ child₁
    else (a, holeIndex, secondChild)

/-- `__adjust_heap(first, holeIndex, len, value, comp)`. -/
def adjust_heap (comp : α → α → Bool) (a : List α) (first holeIndex len : Nat)
    (value : α) : List α :=
  let r := sift_down comp first len len a holeIndex holeIndex
  let a₁ := r.1
  let hole₁ := r.2.1
  let secondChild := r.2.2
  if len % 2 = 0 ∧ secondChild = (len - 2) / 2 then
    let child := 2 * (secondChild + 1)
    push_heap comp first holeIndex value len
      (a₁.set (first + hole₁) (elemAt a₁ (first + (child - 1)))) (child - 1)
  else push_heap comp first holeIndex value len a₁ hole₁

/-- `__pop_heap(first, last, result, comp)`. -/
def pop_heap (comp : α → α → Bool) (a : List α) (first last result : Nat) : List α :=
  let value := elemAt a result
  adjust_heap comp (a.set result (elemAt a first)) first 0 (last - first) value

/-- The loop of `__make_heap`, from `parent` down to 0. -/
def make_heap_loop (comp : α → α → Bool) (first len : Nat) : Nat → List α → List α
  | 0, a => adjust_heap comp a first 0 len (elemAt a first)
  | parent + 1, a =>
    make_heap_loop comp first len parent
      (adjust_heap comp a first (parent + 1) len (elemAt a (first + (parent + 1))))

/-- `__make_heap(first, last, comp)`. -/
def make_heap (comp : α → α → Bool) (a : List α) (first last : Nat) : List α :=
  if last - first < 2 then a
  else make_heap_loop comp first (last - first) ((last - first - 2) / 2) a

/-- `__sort_heap(first, last, comp)`. -/
def sort_heap (comp : α → α → Bool) (first : Nat) : Nat → List α → Nat → List α
  | 0, a, _ => a
  | fuel + 1, a, last =>
    if 1 < last - first then
      sort_heap comp first fuel (pop_heap comp a first (last - 1) (last - 1)) (last - 1)
    else a

/-- `__partial_sort(first, last, last, comp)`, the heap sort `__introsort_loop`
falls back to: with `middle == last` the loop of `__heap_select` has nothing to
visit. -/
def partial_sort (comp : α → α → Bool) (a : List α) (first last : Nat) : List α :=
  sort_heap comp first (last - first) (make_heap comp a first last) last

/-- `__introsort_loop(first, last, depth_limit, comp)`. Each round of the loop
and each nested call lowers `depth_limit`, so `depth_limit + 1` rounds
suffice. -/
def introsort_loop (comp : α → α → Bool) : Nat → List α → Nat → Nat → Nat → List α
  | 0, a, _, _, _ => a
  | fuel + 1, a, first, last, depth_limit =>
    if 16 < last - first then
      if depth_limit = 0 then partial_sort comp a first last
      else
        let r := unguarded_partition_pivot comp a first last
        let a₁ := introsort_loop comp fuel r.1 r.2 last (depth_limit - 1)
        introsort_loop comp fuel a₁ first r.2 (depth_limit - 1)
    else a

/-- `__unguarded_linear_insert(last, comp)` with `value` already taken out of
position `last`. -/
def unguarded_linear_insert (comp : α → α → Bool) (value : α) :
    Nat → List α → Nat → List α
  | 0, a, last => a.set last value
  | fuel + 1, a, last =>
    if comp value (elemAt a (last - 1)) then
      unguarded_linear_insert comp value fuel (a.set last (elemAt a (last - 1))) (last - 1)
    else a.set last value

/-- One round of the loop of `__insertion_sort(first, last, comp)` at position
`i`: an element less than `*first` moves to the front, the elements before it
moving up by one; any other element is inserted by `__unguarded_linear_insert`. -/
def insertion_step (comp : α → α → Bool) (a : List α) (first i : Nat) : List α :=
  if comp (elemAt a i) (elemAt a first) then
    a.take first ++ elemAt a i :: ((a.drop first).take (i - first) ++ a.drop (i + 1))
  else unguarded_linear_insert comp (elemAt a i) i a i

/-- The loop `for (i = from; i != last; ++i)` of `__insertion_sort`. -/
def insertion_loop (comp : α → α → Bool) (first : Nat) : Nat → List α → Nat → List α
  | 0, a, _ => a
  | count + 1, a, i => insertion_loop comp first count (insertion_step comp a first i) (i + 1)

/-- `__insertion_sort(first, last, comp)`. -/
def insertion_sort (comp : α → α → Bool) (a : List α) (first last : Nat) : List α :=
  if first = last then a else insertion_loop comp first (last - (first + 1)) a (first + 1)

/-- `__unguarded_insertion_sort(first, last, comp)`. -/
def unguarded_insertion_sort (comp : α → α → Bool) : Nat → List α → Nat → List α
  | 0, a, _ => a
  | count + 1, a, i =>
    unguarded_insertion_sort comp count (unguarded_linear_insert comp (elemAt a i) i a i)
      (i + 1)

/-- `__final_insertion_sort(first, last, comp)`. -/
def final_insertion_sort (comp : α → α → Bool) (a : List α) (first last : Nat) : List α :=
  if 16 < last - first then
    unguarded_insertion_sort comp (last - (first + 16))
      (insertion_sort comp a first (first + 16)) (first + 16)
  else insertion_sort comp a first last

/-- `std::sort(a.begin(), a.end(), comp)`. -/
def sort (comp : α → α → Bool) (a : List α) : List α :=
  if a.length = 0 then a
  else
    let depth_limit := lg a.length a.length * 2
    final_insertion_sort comp
      (introsort_loop comp (depth_limit + 1) a 0 a.length depth_limit) 0 a.length

end StdSort

/-- A default-constructed `Event`. -/
instance : Inhabited Event :=
  ⟨{ team_a_name := "", team_b_name := "", name := "", time := 0, game_updates := [],
     team_a_updates := [], team_b_updates := [], description := "" }⟩

/-- An event file whose first team name holds a line break. -/
def lineBreakFile : names_and_events :=
  { team_a_name := "x\ny", team_b_name := "z",
    events := [{ sampleEvent 10 "goal" with team_a_name := "x\ny", team_b_name := "z" }] }

/-- A file system holding `linebreak.txt`, an event codec that reads the body
`goal` as an event timestamped 10, and a tie-keeping sort. -/
def lineBreakEnv : Env :=
  { parseEventsFile := fun path => if path = "linebreak.txt" then some lineBreakFile else none,
    parseEvent := fun body => if body = "goal" then some (sampleEvent 10 "goal") else none,
    sort := sortByTime }

/-! ## Lemmas -/

namespace StdMap
variable {K V : Type} [DecidableEq K] [KeyLess K]

theorem find_insert_self (k : K) (v : V) (m : List (K × V)) :
    find k (insert k v m) = some v := by
  induction m with
  | nil => simp [insert, find]
  | cons p rest ih =>
    obtain ⟨k', v'⟩ := p
    by_cases h : k' = k
    · simp [insert, find, h]
    · by_cases hl : KeyLess.less k k' = true
      · simp [insert, find, h, hl]
      · simp [insert, find, h, hl, ih]

theorem find_insert_ne (k k' : K) (v : V) (m : List (K × V)) (hne : k ≠ k') :
    find k' (insert k v m) = find k' m := by
  induction m with
  | nil => simp [insert, find, hne]
  | cons p rest ih =>
    obtain ⟨k₁, v₁⟩ := p
    by_cases h : k₁ = k
    · subst h
      simp [insert, find, hne]
    · by_cases hl : KeyLess.less k k₁ = true
      · simp [insert, find, h, hl, hne]
      · simp [insert, find, h, hl, ih]

omit [KeyLess K] in
theorem find_erase_self (k : K) (m : List (K × V)) : find k (erase k m) = none := by
  induction m with
  | nil => simp [erase, find]
  | cons p rest ih =>
    obtain ⟨k₁, v₁⟩ := p
    by_cases h : k₁ = k
    · simp [erase, h, ih]
    · simp [erase, find, h, ih]

omit [KeyLess K] in
theorem find_erase_ne (k k' : K) (m : List (K × V)) (hne : k ≠ k') :
    find k' (erase k m) = find k' m := by
  induction m with
  | nil => simp [erase, find]
  | cons p rest ih =>
    obtain ⟨k₁, v₁⟩ := p
    by_cases h : k₁ = k
    · subst h
      simp [erase, find, ih, hne]
    · simp [erase, find, h, ih]

end StdMap

theorem bucketOf_pushEvent_self (g u : String) (e : Event)
    (store : List (String × List (String × List Event))) :
    bucketOf g u (pushEvent g u e store) = some ((bucketOf g u store).getD [] ++ [e]) := by
  unfold bucketOf pushEvent
  simp only [StdMap.find_insert_self, Option.bind_some]
  cases h : StdMap.find g store <;> simp [StdMap.find_insert_self, StdMap.find]

theorem bucketOf_pushEvent_other (g u g' u' : String) (e : Event)
    (store : List (String × List (String × List Event))) (hne : ¬ (g = g' ∧ u = u')) :
    bucketOf g' u' (pushEvent g u e store) = bucketOf g' u' store := by
  unfold bucketOf pushEvent
  by_cases hg : g = g'
  · subst hg
    have hu : u ≠ u' := fun h => hne ⟨rfl, h⟩
    simp only [StdMap.find_insert_self, Option.bind_some, StdMap.find_insert_ne _ _ _ _ hu]
    cases h : StdMap.find g store <;>
      simp [StdMap.find_insert_ne _ _ _ _ hu, StdMap.find, hu]
  · simp only [StdMap.find_insert_ne _ _ _ _ hg]

theorem reportLoop_frames (u g : String) (n_e : names_and_events) (events : List Event)
    (store : List (String × List (String × List Event))) (frames : List String) :
    (reportLoop u g n_e events store frames).2 = frames ++ events.map (sendFrame u n_e) := by
  induction events generalizing store frames with
  | nil => simp [reportLoop]
  | cons e rest ih => simp [reportLoop, ih]

theorem reportLoop_bucket (u g : String) (n_e : names_and_events) (events : List Event)
    (store : List (String × List (String × List Event))) (frames : List String) :
    (bucketOf g u (reportLoop u g n_e events store frames).1).getD [] =
      (bucketOf g u store).getD [] ++ events := by
  induction events generalizing store frames with
  | nil => simp [reportLoop]
  | cons e rest ih => simp [reportLoop, ih, bucketOf_pushEvent_self]

theorem reportLoop_other (u g g' u' : String) (n_e : names_and_events) (events : List Event)
    (store : List (String × List (String × List Event))) (frames : List String)
    (hne : ¬ (g = g' ∧ u = u')) :
    bucketOf g' u' (reportLoop u g n_e events store frames).1 = bucketOf g' u' store := by
  induction events generalizing store frames with
  | nil => simp [reportLoop]
  | cons e rest ih => simp [reportLoop, ih, bucketOf_pushEvent_other _ _ _ _ _ _ hne]

theorem tokensAux_no_space (cs cur : List Char) (hcur : ∀ c ∈ cur, isspace c = false) :
    ∀ t ∈ tokensAux cs cur, ∀ c ∈ t.data, isspace c = false := by
  induction cs generalizing cur with
  | nil =>
    intro t ht c hc
    by_cases h : cur = []
    · simp [tokensAux, h] at ht
    · simp only [tokensAux, h, if_false, List.mem_singleton] at ht
      subst ht
      exact hcur c (by simpa using hc)
  | cons a rest ih =>
    intro t ht c hc
    by_cases hs : isspace a = true
    · by_cases h : cur = []
      · simp only [tokensAux, hs, h, if_true] at ht
        exact ih [] (by simp) t ht c hc
      · simp only [tokensAux, hs, h, if_true, if_false, List.mem_cons] at ht
        rcases ht with ht | ht
        · subst ht
          exact hcur c (by simpa using hc)
        · exact ih [] (by simp) t ht c hc
    · simp only [tokensAux, hs] at ht
      refine ih (a :: cur) ?_ t ht c hc
      intro d hd
      rcases List.mem_cons.mp hd with hd | hd
      · subst hd
        simpa using hs
      · exact hcur d hd

theorem extract_no_space (line : String) (i : Nat) :
    ∀ c ∈ (extract (tokens line) i "").data, isspace c = false := by
  intro c hc
  unfold extract at hc
  cases h : (tokens line)[i]? with
  | none => simp [h] at hc
  | some t =>
    simp only [h, Option.getD_some] at hc
    exact tokensAux_no_space line.data [] (by simp) t (List.getElem?_mem h) c hc

theorem extract_no_newline (line : String) (i : Nat) :
    '\n' ∉ (extract (tokens line) i "").data := by
  intro h
  have := extract_no_space line i '\n' h
  simp [isspace] at this

theorem readLine_append (l rest : List Char) (hnl : '\n' ∉ l) :
    readLine (l ++ '\n' :: rest) = (l, rest) := by
  induction l with
  | nil => simp [readLine]
  | cons c cs ih =>
    have hc : c ≠ '\n' := fun h => hnl (by simp [h])
    have hcs : '\n' ∉ cs := fun h => hnl (by simp [h])
    simp [readLine, hc, ih hcs]

theorem readLine_length (ss : List Char) : (readLine ss).2.length ≤ ss.length - 1 := by
  induction ss with
  | nil => simp [readLine]
  | cons c cs ih =>
    by_cases hc : c = '\n'
    · simp [readLine, hc]
    · simp only [readLine, hc, if_false, List.length_cons, Nat.add_sub_cancel]
      omega

theorem headerLoop_fuel_irrel (f₁ f₂ : Nat) (ss : List Char) (h : List (String × String))
    (h₁ : ss.length ≤ f₁) (h₂ : ss.length ≤ f₂) :
    headerLoop f₁ ss h = headerLoop f₂ ss h := by
  induction f₁ generalizing f₂ ss h with
  | zero =>
    have : ss = [] := List.eq_nil_of_length_eq_zero (by omega)
    subst this
    cases f₂ <;> simp [headerLoop, getline]
  | succ n ih =>
    cases f₂ with
    | zero =>
      have : ss = [] := List.eq_nil_of_length_eq_zero (by omega)
      subst this
      simp [headerLoop, getline]
    | succ m =>
      cases ss with
      | nil => simp [headerLoop, getline]
      | cons c cs =>
        simp only [headerLoop, getline]
        have hlen := readLine_length (c :: cs)
        simp only [List.length_cons, Nat.add_sub_cancel] at hlen h₁ h₂
        split
        · rfl
        · exact ih m _ _ (by omega) (by omega)

/-- The rounds allowed to the header loop always suffice: more fuel changes
nothing. -/
theorem headerLoop_fuel (fuel : Nat) (ss : List Char) (h : List (String × String))
    (hf : ss.length ≤ fuel) : headerLoop fuel ss h = headerLoop ss.length ss h :=
  headerLoop_fuel_irrel fuel ss.length ss h hf (le_refl _)

theorem headerLoop_line (l rest : List Char) (h : List (String × String))
    (hnl : '\n' ∉ l) (hne : l ≠ []) (hcr : l ≠ ['\r']) :
    headerLoop (l ++ '\n' :: rest).length (l ++ '\n' :: rest) h =
      headerLoop rest.length rest (addHeader l h) := by
  cases l with
  | nil => exact absurd rfl hne
  | cons c cs =>
    have hrl := readLine_append (c :: cs) rest hnl
    simp only [List.cons_append] at hrl
    simp only [List.cons_append, List.length_cons, headerLoop, getline, hrl]
    rw [if_neg (by simp [hcr])]
    exact headerLoop_fuel _ _ _ (by simp; omega)

theorem headerLoop_blank (rest : List Char) (h : List (String × String)) :
    headerLoop ('\n' :: rest).length ('\n' :: rest) h = (h, rest) := by
  simp [headerLoop, getline, readLine]

theorem digitChar_plain (d : Nat) (hd : d < 10) : plainChar (Nat.digitChar d) := by
  unfold plainChar
  interval_cases d <;> decide

theorem toDigitsCore_plain (fuel n : Nat) (acc : List Char)
    (hacc : ∀ c ∈ acc, plainChar c) : ∀ c ∈ Nat.toDigitsCore 10 fuel n acc, plainChar c := by
  induction fuel generalizing n acc with
  | zero => simpa [Nat.toDigitsCore] using hacc
  | succ k ih =>
    intro c hc
    simp only [Nat.toDigitsCore] at hc
    have hacc' : ∀ c ∈ Nat.digitChar (n % 10) :: acc, plainChar c := by
      intro d hd
      rcases List.mem_cons.mp hd with hd | hd
      · subst hd
        exact digitChar_plain _ (Nat.mod_lt _ (by decide))
      · exact hacc d hd
    split at hc
    · exact hacc' c hc
    · exact ih _ _ hacc' c hc

theorem to_string_plain (i : Int) : ∀ c ∈ (to_string i).data, plainChar c := by
  intro c hc
  cases i with
  | ofNat m =>
    have : (to_string (Int.ofNat m)).data = Nat.toDigits 10 m := rfl
    rw [this] at hc
    exact toDigitsCore_plain _ _ _ (by simp) c hc
  | negSucc m =>
    have : (to_string (Int.negSucc m)).data = '-' :: Nat.toDigits 10 (m + 1) := rfl
    rw [this] at hc
    rcases List.mem_cons.mp hc with hc | hc
    · subst hc
      unfold plainChar
      decide
    · exact toDigitsCore_plain _ _ _ (by simp) c hc

theorem to_string_no_newline (i : Int) : '\n' ∉ (to_string i).data :=
  fun h => (to_string_plain i _ h).1 rfl

theorem takeWhile_ne_append (x : Char) (key value : List Char) (hk : x ∉ key) :
    (key ++ x :: value).takeWhile (fun c => c ≠ x) = key := by
  induction key with
  | nil => simp
  | cons c cs ih =>
    have hc : c ≠ x := fun e => hk (by simp [e])
    have hcs : x ∉ cs := fun e => hk (by simp [e])
    have := ih hcs
    simp only [List.cons_append, List.takeWhile_cons, ne_eq, hc, not_false_eq_true,
      decide_True, if_true, List.cons.injEq, true_and]
    simpa using this

theorem dropWhile_ne_append (x : Char) (key value : List Char) (hk : x ∉ key) :
    (key ++ x :: value).dropWhile (fun c => c ≠ x) = x :: value := by
  induction key with
  | nil => simp
  | cons c cs ih =>
    have hc : c ≠ x := fun e => hk (by simp [e])
    have hcs : x ∉ cs := fun e => hk (by simp [e])
    have := ih hcs
    simp only [List.cons_append, List.dropWhile_cons, ne_eq, hc, not_false_eq_true,
      decide_True, if_true]
    simpa using this

theorem addHeader_split (key value : List Char) (h : List (String × String))
    (hk : ':' ∉ key) :
    addHeader (key ++ ':' :: value) h = StdMap.insert (String.mk key) (String.mk value) h := by
  unfold addHeader
  rw [if_pos (by simp), takeWhile_ne_append _ _ _ hk, dropWhile_ne_append _ _ _ hk]
  rfl

theorem decode_command (verb rest : List Char) (hv : '\n' ∉ verb) :
    (decode (String.mk (verb ++ '\n' :: rest))).map (fun d => d.command) =
      some (String.mk verb) := by
  have hrl := readLine_append verb rest hv
  unfold decode
  cases hl : verb ++ '\n' :: rest with
  | nil => simp at hl
  | cons c cs =>
    rw [hl] at hrl
    simp [getline, hrl]

theorem subscribeFrame_data (g : String) (a b : Int) :
    (subscribeFrame g a b).data =
      "SUBSCRIBE".data ++ '\n' :: (("destination".data ++ ':' :: ('/' :: g.data)) ++ '\n' ::
        (("id".data ++ ':' :: (to_string a).data) ++ '\n' ::
          (("receipt".data ++ ':' :: (to_string b).data) ++ '\n' :: ['\n']))) := by
  simp only [subscribeFrame, String.data_append, List.append_assoc]
  rfl

theorem decode_subscribeFrame (g : String) (a b : Int) (hg : '\n' ∉ g.data) :
    decode (subscribeFrame g a b) =
      some { command := "SUBSCRIBE",
             headers := [("destination", "/" ++ g), ("id", to_string a),
                         ("receipt", to_string b)],
             body := "" } := by
  have hd := subscribeFrame_data g a b
  have hrl := readLine_append "SUBSCRIBE".data
    (("destination".data ++ ':' :: ('/' :: g.data)) ++ '\n' ::
        (("id".data ++ ':' :: (to_string a).data) ++ '\n' ::
          (("receipt".data ++ ':' :: (to_string b).data) ++ '\n' :: ['\n']))) (by decide)
  have h₁ : '\n' ∉ "destination".data ++ ':' :: ('/' :: g.data) := by
    simp only [List.mem_append, List.mem_cons, not_or]
    exact ⟨by decide, by decide, by decide, hg⟩
  have h₂ : '\n' ∉ "id".data ++ ':' :: (to_string a).data := by
    simp only [List.mem_append, List.mem_cons, not_or]
    exact ⟨by decide, by decide, to_string_no_newline a⟩
  have h₃ : '\n' ∉ "receipt".data ++ ':' :: (to_string b).data := by
    simp only [List.mem_append, List.mem_cons, not_or]
    exact ⟨by decide, by decide, to_string_no_newline b⟩
  unfold decode
  rw [hd]
  rw [show "SUBSCRIBE".data ++ '\n' :: _ = 'S' :: ("UBSCRIBE".data ++ '\n' :: _) from rfl] at hrl ⊢
  simp only [getline, hrl]
  rw [headerLoop_line _ _ _ h₁ (by simp) (by simp),
    headerLoop_line _ _ _ h₂ (by simp) (by simp),
    headerLoop_line _ _ _ h₃ (by simp) (by simp),
    headerLoop_blank,
    addHeader_split _ _ _ (by decide), addHeader_split _ _ _ (by decide),
    addHeader_split _ _ _ (by decide)]
  rfl

theorem verbOf_subscribeFrame (g : String) (a b : Int) (hg : '\n' ∉ g.data) :
    verbOf (subscribeFrame g a b) = some "SUBSCRIBE" := by
  simp [verbOf, decode_subscribeFrame g a b hg]

theorem headerOf_id_subscribeFrame (g : String) (a b : Int) (hg : '\n' ∉ g.data) :
    headerOf "id" (subscribeFrame g a b) = some (to_string a) := by
  simp only [headerOf, decode_subscribeFrame g a b hg, Option.bind_some]
  rfl

theorem verbOf_unsubscribeFrame (a b : Int) :
    verbOf (unsubscribeFrame a b) = some "UNSUBSCRIBE" := by
  have h : unsubscribeFrame a b = String.mk ("UNSUBSCRIBE".data ++ '\n' ::
      ("id:" ++ to_string a ++ "\nreceipt:" ++ to_string b ++ "\n\n").data) := by
    apply String.ext
    simp only [unsubscribeFrame, String.data_append, List.append_assoc]
    rfl
  rw [verbOf, h]
  exact decode_command _ _ (by decide)

theorem verbOf_disconnectFrame (b : Int) :
    verbOf (disconnectFrame b) = some "DISCONNECT" := by
  have h : disconnectFrame b = String.mk ("DISCONNECT".data ++ '\n' ::
      ("receipt:" ++ to_string b ++ "\n\n").data) := by
    apply String.ext
    simp only [disconnectFrame, String.data_append, List.append_assoc]
    rfl
  rw [verbOf, h]
  exact decode_command _ _ (by decide)

theorem verbOf_sendFrame (u : String) (n_e : names_and_events) (e : Event) :
    verbOf (sendFrame u n_e e) = some "SEND" := by
  have h : ∃ rest : List Char, sendFrame u n_e e = String.mk ("SEND".data ++ '\n' :: rest) := by
    refine ⟨(sendFrame u n_e e).data.drop 5, ?_⟩
    apply String.ext
    simp only [sendFrame, String.data_append, List.append_assoc]
    rfl
  obtain ⟨rest, h⟩ := h
  rw [verbOf, h]
  exact decode_command _ _ (by decide)

/-- What `join` does, in any state. -/
theorem processInput_join (env : Env) (s : StompProtocol) (line : String)
    (hc : commandOf line = "join") :
    processInput env s line = .ok
      { state := { s with
          subscriptionCounter := s.subscriptionCounter + 1
          receiptCounter := s.receiptCounter + 1
          channelToSubId :=
            StdMap.insert (extract (tokens line) 1 "") s.subscriptionCounter s.channelToSubId
          receiptToCommand :=
            StdMap.insert s.receiptCounter ("Joined channel " ++ extract (tokens line) 1 "")
              s.receiptToCommand },
        frames := [subscribeFrame (extract (tokens line) 1 "") s.subscriptionCounter
          s.receiptCounter],
        written := none } := by
  unfold commandOf at hc
  simp [processInput, hc]

/-- A command other than `join` allocates no subscription id and returns no
SUBSCRIBE frame. -/
theorem processInput_not_join (env : Env) (s : StompProtocol) (line : String)
    (r : InputResult) (hc : commandOf line ≠ "join") (h : processInput env s line = .ok r) :
    r.state.subscriptionCounter = s.subscriptionCounter ∧
      subscribeFramesOf r.frames = [] := by
  unfold commandOf at hc
  unfold processInput at h
  simp only [hc, if_false] at h
  split_ifs at h with h₁ h₂ h₃ h₄ h₅
  · cases h; exact ⟨rfl, rfl⟩
  · split at h <;> cases h
    · refine ⟨rfl, ?_⟩
      simp [subscribeFramesOf, verbOf_unsubscribeFrame]
    · exact ⟨rfl, rfl⟩
  · cases h
    refine ⟨rfl, ?_⟩
    simp [subscribeFramesOf, verbOf_disconnectFrame]
  · split at h
    · cases h
    · cases h
      refine ⟨rfl, ?_⟩
      simp only [reportLoop_frames, List.nil_append, subscribeFramesOf]
      rw [List.filter_eq_nil_iff]
      intro f hf
      obtain ⟨e, -, rfl⟩ := List.mem_map.mp hf
      simp [verbOf_sendFrame]
  · split at h <;> cases h <;> exact ⟨rfl, rfl⟩
  · cases h; exact ⟨rfl, rfl⟩

theorem subscribeFramesOf_append (a b : List String) :
    subscribeFramesOf (a ++ b) = subscribeFramesOf a ++ subscribeFramesOf b := by
  simp [subscribeFramesOf]

theorem subscribeFramesOf_join (line : String) (a b : Int) :
    subscribeFramesOf [subscribeFrame (extract (tokens line) 1 "") a b] =
      [subscribeFrame (extract (tokens line) 1 "") a b] := by
  simp [subscribeFramesOf, verbOf_subscribeFrame _ _ _ (extract_no_newline line 1)]

/-- From any state, the SUBSCRIBE frames sent carry the ids
`subscriptionCounter, subscriptionCounter + 1, ...` in order. -/
theorem subscribe_ids_from (env : Env) (s : StompProtocol) (lines : List String) :
    (subscribeFramesOf (framesSent env s lines)).map (headerOf "id") =
      (List.range (subscribeFramesOf (framesSent env s lines)).length).map
        (fun (k : Nat) => some (to_string (s.subscriptionCounter + (k : Int)))) := by
  induction lines generalizing s with
  | nil => simp [framesSent, subscribeFramesOf]
  | cons line rest ih =>
    by_cases hc : commandOf line = "join"
    · have hg := extract_no_newline line 1
      have hfs : framesSent env s (line :: rest) =
          subscribeFrame (extract (tokens line) 1 "") s.subscriptionCounter s.receiptCounter ::
            framesSent env
              { s with
                subscriptionCounter := s.subscriptionCounter + 1
                receiptCounter := s.receiptCounter + 1
                channelToSubId := StdMap.insert (extract (tokens line) 1 "")
                  s.subscriptionCounter s.channelToSubId
                receiptToCommand := StdMap.insert s.receiptCounter
                  ("Joined channel " ++ extract (tokens line) 1 "") s.receiptToCommand }
              rest := by
        simp only [framesSent, processInput_join env s line hc, List.singleton_append]
      rw [hfs, ← List.singleton_append, subscribeFramesOf_append, subscribeFramesOf_join,
        List.singleton_append, List.map_cons, List.length_cons, List.range_succ_eq_map,
        List.map_cons, List.map_map, headerOf_id_subscribeFrame _ _ _ hg, ih]
      congr 1
      · simp
      · apply List.map_congr_left
        intro k _
        show some (to_string (s.subscriptionCounter + 1 + (k : Int))) =
          some (to_string (s.subscriptionCounter + ((k + 1 : Nat) : Int)))
        rw [Nat.cast_succ, add_assoc, add_comm (1 : Int)]
    · cases h : processInput env s line with
      | error e => simp [framesSent, h, subscribeFramesOf]
      | ok r =>
        obtain ⟨hctr, hfr⟩ := processInput_not_join env s line r hc h
        simp only [framesSent, h, subscribeFramesOf_append, hfr, List.nil_append]
        rw [ih r.state, hctr]

/-- When no command throws, the frames sent are the frames returned, and the
number of SUBSCRIBE frames among them is the number of `join` commands. -/
theorem subscribe_count (env : Env) (s s' : StompProtocol) (lines frames : List String)
    (h : runInputs env s lines = .ok (s', frames)) :
    framesSent env s lines = frames ∧
      (subscribeFramesOf frames).length =
        (lines.filter (fun l => commandOf l = "join")).length := by
  induction lines generalizing s s' frames with
  | nil =>
    simp only [runInputs, Except.ok.injEq, Prod.mk.injEq] at h
    obtain ⟨-, rfl⟩ := h
    simp [framesSent, subscribeFramesOf]
  | cons line rest ih =>
    simp only [runInputs] at h
    cases hp : processInput env s line with
    | error e => simp [hp] at h
    | ok r =>
      simp only [hp] at h
      cases hr : runInputs env r.state rest with
      | error e => simp [hr] at h
      | ok p =>
        obtain ⟨s₂, fs⟩ := p
        simp only [hr, Except.ok.injEq, Prod.mk.injEq] at h
        obtain ⟨-, rfl⟩ := h
        obtain ⟨ih₁, ih₂⟩ := ih r.state s₂ fs hr
        refine ⟨by simp [framesSent, hp, ih₁], ?_⟩
        by_cases hc : commandOf line = "join"
        · have hj := processInput_join env s line hc
          rw [hp] at hj
          cases hj
          simp only [subscribeFramesOf_append, subscribeFramesOf_join, List.length_append,
            ih₂, List.filter_cons, hc, decide_True, if_true, List.length_cons,
            List.length_nil]
          omega
        · obtain ⟨-, hfr⟩ := processInput_not_join env s line r hc hp
          simp [subscribeFramesOf_append, ih₂, List.filter_cons, hc, hfr]

theorem insertionSort_by_time (l : List Event) :
    (l.insertionSort (fun a b => a.time ≤ b.time)).Perm l ∧
      (l.insertionSort (fun a b => a.time ≤ b.time)).Pairwise
        (fun a b => ¬ b.time < a.time) := by
  haveI : IsTotal Event (fun a b => a.time ≤ b.time) := ⟨fun a b => le_total a.time b.time⟩
  haveI : IsTrans Event (fun a b => a.time ≤ b.time) := ⟨fun _ _ _ h₁ h₂ => le_trans h₁ h₂⟩
  refine ⟨List.perm_insertionSort _ l, ?_⟩
  have h := List.sorted_insertionSort (fun a b : Event => a.time ≤ b.time) l
  exact List.Pairwise.imp (fun h => not_lt.mpr h) h

/-- The tie-keeping insertion sort meets the contract of `std::sort`. -/
theorem sortByTime_contract : SortContract sortByTime :=
  fun l => insertionSort_by_time l

/-- What `summary` does, in any state, when the bucket exists. -/
theorem processInput_summary (env : Env) (s : StompProtocol) (line : String)
    (bucket : List Event) (hc : commandOf line = "summary")
    (hb : bucketOf (extract (tokens line) 1 "") (extract (tokens line) 2 "") s.gameReports =
      some bucket) :
    processInput env s line = .ok
      { state := s, frames := [],
        written := some (extract (tokens line) 3 "",
          summaryStats (env.sort bucket) ++ eventReports (env.sort bucket)) } := by
  unfold commandOf at hc
  have h₁ : ¬ ("summary" = "login") := by decide
  have h₂ : ¬ ("summary" = "join") := by decide
  have h₃ : ¬ ("summary" = "exit") := by decide
  have h₄ : ¬ ("summary" = "logout") := by decide
  have h₅ : ¬ ("summary" = "report") := by decide
  simp [processInput, hc, h₁, h₂, h₃, h₄, h₅, hb, summaryText]

/-- A sorted rearrangement of two events in decreasing time order is the pair
swapped. -/
theorem sorted_pair (sorted : List Event) (a b : Event) (hp : sorted.Perm [a, b])
    (hs : sorted.Pairwise (fun x y => x.time ≤ y.time)) (hlt : b.time < a.time) :
    sorted = [b, a] := by
  have hlen : sorted.length = 2 := by simpa using hp.length_eq
  match sorted, hlen with
  | [x, y], _ =>
    have hx : x ∈ [a, b] := hp.subset (by simp)
    have hy : y ∈ [a, b] := hp.subset (by simp)
    have ha : a ∈ [x, y] := hp.symm.subset (by simp)
    have hb : b ∈ [x, y] := hp.symm.subset (by simp)
    have hxy : x.time ≤ y.time := by simpa using hs
    simp only [List.mem_cons, List.mem_singleton, List.not_mem_nil, or_false] at hx hy ha hb
    rcases hx with rfl | rfl
    · rcases hy with rfl | rfl
      · rcases hb with rfl | rfl <;> omega
      · omega
    · rcases hy with rfl | rfl
      · rfl
      · rcases ha with rfl | rfl <;> omega

/-- What `report` does, in any state, when the event file parses. -/
theorem processInput_report (env : Env) (s : StompProtocol) (line : String)
    (n_e : names_and_events) (hc : commandOf line = "report")
    (hf : env.parseEventsFile (extract (tokens line) 1 "") = some n_e) :
    processInput env s line = .ok
      { state := { s with
          gameReports :=
            (reportLoop s.userName (n_e.team_a_name ++ "_" ++ n_e.team_b_name) n_e n_e.events
              s.gameReports []).1 },
        frames :=
          (reportLoop s.userName (n_e.team_a_name ++ "_" ++ n_e.team_b_name) n_e n_e.events
            s.gameReports []).2,
        written := none } := by
  unfold commandOf at hc
  have h₁ : ¬ ("report" = "login") := by decide
  have h₂ : ¬ ("report" = "join") := by decide
  have h₃ : ¬ ("report" = "exit") := by decide
  have h₄ : ¬ ("report" = "logout") := by decide
  simp only [processInput, hc, h₁, h₂, h₃, h₄, if_false, if_true, hf]

theorem unsubscribeFrame_data (a b : Int) :
    (unsubscribeFrame a b).data =
      "UNSUBSCRIBE".data ++ '\n' :: (("id".data ++ ':' :: (to_string a).data) ++ '\n' ::
          (("receipt".data ++ ':' :: (to_string b).data) ++ '\n' :: ['\n'])) := by
  simp only [unsubscribeFrame, String.data_append, List.append_assoc]
  rfl

theorem decode_unsubscribeFrame (a b : Int) :
    decode (unsubscribeFrame a b) =
      some { command := "UNSUBSCRIBE",
             headers := [("id", to_string a), ("receipt", to_string b)],
             body := "" } := by
  have hd := unsubscribeFrame_data a b
  have hrl := readLine_append "UNSUBSCRIBE".data
    (("id".data ++ ':' :: (to_string a).data) ++ '\n' ::
          (("receipt".data ++ ':' :: (to_string b).data) ++ '\n' :: ['\n'])) (by decide)
  have h₂ : '\n' ∉ "id".data ++ ':' :: (to_string a).data := by
    simp only [List.mem_append, List.mem_cons, not_or]
    exact ⟨by decide, by decide, to_string_no_newline a⟩
  have h₃ : '\n' ∉ "receipt".data ++ ':' :: (to_string b).data := by
    simp only [List.mem_append, List.mem_cons, not_or]
    exact ⟨by decide, by decide, to_string_no_newline b⟩
  unfold decode
  rw [hd]
  rw [show "UNSUBSCRIBE".data ++ '\n' :: _ = 'U' :: ("NSUBSCRIBE".data ++ '\n' :: _) from rfl]
    at hrl ⊢
  simp only [getline, hrl]
  rw [headerLoop_line _ _ _ h₂ (by simp) (by simp),
    headerLoop_line _ _ _ h₃ (by simp) (by simp),
    headerLoop_blank,
    addHeader_split _ _ _ (by decide), addHeader_split _ _ _ (by decide)]
  rfl

theorem headerOf_id_unsubscribeFrame (a b : Int) :
    headerOf "id" (unsubscribeFrame a b) = some (to_string a) := by
  simp only [headerOf, decode_unsubscribeFrame, Option.bind_some]
  rfl

/-- What `exit` does, in any state, on a channel with an active subscription. -/
theorem processInput_exit_active (env : Env) (s : StompProtocol) (line : String)
    (subId : Int) (hc : commandOf line = "exit")
    (hf : StdMap.find (extract (tokens line) 1 "") s.channelToSubId = some subId) :
    processInput env s line = .ok
      { state := { s with
          receiptCounter := s.receiptCounter + 1
          receiptToCommand :=
            StdMap.insert s.receiptCounter ("Exited channel " ++ extract (tokens line) 1 "")
              s.receiptToCommand
          channelToSubId := StdMap.erase (extract (tokens line) 1 "") s.channelToSubId },
        frames := [unsubscribeFrame subId s.receiptCounter],
        written := none } := by
  unfold commandOf at hc
  have h₁ : ¬ ("exit" = "login") := by decide
  have h₂ : ¬ ("exit" = "join") := by decide
  simp [processInput, hc, h₁, h₂, hf]

/-- What `exit` does, in any state, on a channel without a subscription. -/
theorem processInput_exit_inactive (env : Env) (s : StompProtocol) (line : String)
    (hc : commandOf line = "exit")
    (hf : StdMap.find (extract (tokens line) 1 "") s.channelToSubId = none) :
    processInput env s line = .ok { state := s, frames := [], written := none } := by
  unfold commandOf at hc
  have h₁ : ¬ ("exit" = "login") := by decide
  have h₂ : ¬ ("exit" = "join") := by decide
  simp [processInput, hc, h₁, h₂, hf]

/-- A command that is neither `join c` nor `exit c` leaves the registry entry
of the channel `c` as it was. -/
theorem find_channel_step (env : Env) (s : StompProtocol) (line : String) (r : InputResult)
    (c : String) (h : processInput env s line = .ok r)
    (hne : ¬ ((commandOf line = "join" ∨ commandOf line = "exit") ∧
      extract (tokens line) 1 "" = c)) :
    StdMap.find c r.state.channelToSubId = StdMap.find c s.channelToSubId := by
  by_cases hj : commandOf line = "join"
  · have hc : extract (tokens line) 1 "" ≠ c := fun e => hne ⟨Or.inl hj, e⟩
    rw [processInput_join env s line hj] at h
    cases h
    exact StdMap.find_insert_ne _ _ _ _ hc
  · by_cases he : commandOf line = "exit"
    · have hc : extract (tokens line) 1 "" ≠ c := fun e => hne ⟨Or.inr he, e⟩
      cases hf : StdMap.find (extract (tokens line) 1 "") s.channelToSubId with
      | none =>
        rw [processInput_exit_inactive env s line he hf] at h
        cases h
        rfl
      | some subId =>
        rw [processInput_exit_active env s line subId he hf] at h
        cases h
        exact StdMap.find_erase_ne _ _ _ hc
    · unfold commandOf at hj he
      unfold processInput at h
      simp only [hj, he, if_false] at h
      split_ifs at h
      · cases h; rfl
      · cases h; rfl
      · split at h <;> cases h
        rfl
      · split at h <;> cases h <;> rfl
      · cases h; rfl

/-- A run of commands none of which is `join c` or `exit c` leaves the registry
entry of the channel `c` as it was. -/
theorem find_channel_run (env : Env) (s s' : StompProtocol) (lines frames : List String)
    (c : String) (h : runInputs env s lines = .ok (s', frames))
    (hne : ∀ l ∈ lines, ¬ ((commandOf l = "join" ∨ commandOf l = "exit") ∧
      extract (tokens l) 1 "" = c)) :
    StdMap.find c s'.channelToSubId = StdMap.find c s.channelToSubId := by
  induction lines generalizing s s' frames with
  | nil =>
    simp only [runInputs, Except.ok.injEq, Prod.mk.injEq] at h
    rw [← h.1]
  | cons line rest ih =>
    simp only [runInputs] at h
    cases hp : processInput env s line with
    | error e => simp [hp] at h
    | ok r =>
      simp only [hp] at h
      cases hr : runInputs env r.state rest with
      | error e => simp [hr] at h
      | ok p =>
        obtain ⟨s₂, fs⟩ := p
        simp only [hr, Except.ok.injEq, Prod.mk.injEq] at h
        obtain ⟨rfl, -⟩ := h
        rw [ih r.state s₂ fs hr (fun l hl => hne l (List.mem_cons_of_mem _ hl)),
          find_channel_step env s line r c hp (hne line (List.mem_cons_self _ _))]

/-- The only exception `processServerFrame` can raise is the one `std::stoi`
raises on the `receipt-id` header of a `RECEIPT` frame. -/
theorem processServerFrame_throws_iff (env : Env) (s : StompProtocol) (frame : String)
    (e : StompException) :
    processServerFrame env s frame = .error e ↔
      ∃ d, decode frame = some d ∧ d.command = "RECEIPT" ∧
        stoi (header "receipt-id" d.headers) = .error e := by
  have hne₁ : ¬ ("RECEIPT" = "CONNECTED") := by decide
  have hne₂ : ¬ ("RECEIPT" = "ERROR") := by decide
  constructor
  · intro h
    unfold processServerFrame at h
    cases hd : decode frame with
    | none => simp [hd] at h
    | some d =>
      simp only [hd] at h
      refine ⟨d, rfl, ?_⟩
      split_ifs at h with h₁ h₂ h₃ h₄ h₅
      · refine ⟨h₃, ?_⟩
        cases hs : stoi (header "receipt-id" d.headers) with
        | error e' =>
          simp only [hs] at h
          cases h
          rfl
        | ok r =>
          simp only [hs] at h
          split at h
          · split_ifs at h
          · cases h
      · split at h <;> cases h
  · rintro ⟨d, hd, hc, hs⟩
    simp [processServerFrame, hd, hc, hne₁, hne₂, hs]

theorem disconnectFrame_data (b : Int) :
    (disconnectFrame b).data =
      "DISCONNECT".data ++ '\n' ::
        (("receipt".data ++ ':' :: (to_string b).data) ++ '\n' :: ['\n']) := by
  simp only [disconnectFrame, String.data_append, List.append_assoc]
  rfl

theorem decode_disconnectFrame (b : Int) :
    decode (disconnectFrame b) =
      some { command := "DISCONNECT", headers := [("receipt", to_string b)], body := "" } := by
  have hd := disconnectFrame_data b
  have hrl := readLine_append "DISCONNECT".data
    (("receipt".data ++ ':' :: (to_string b).data) ++ '\n' :: ['\n']) (by decide)
  have h₃ : '\n' ∉ "receipt".data ++ ':' :: (to_string b).data := by
    simp only [List.mem_append, List.mem_cons, not_or]
    exact ⟨by decide, by decide, to_string_no_newline b⟩
  unfold decode
  rw [hd]
  rw [show "DISCONNECT".data ++ '\n' :: _ = 'D' :: ("ISCONNECT".data ++ '\n' :: _) from rfl]
    at hrl ⊢
  simp only [getline, hrl]
  rw [headerLoop_line _ _ _ h₃ (by simp) (by simp), headerLoop_blank,
    addHeader_split _ _ _ (by decide)]
  rfl

theorem headerOf_receipt_subscribeFrame (g : String) (a b : Int) (hg : '\n' ∉ g.data) :
    headerOf "receipt" (subscribeFrame g a b) = some (to_string b) := by
  simp only [headerOf, decode_subscribeFrame g a b hg, Option.bind_some]
  rfl

theorem headerOf_receipt_unsubscribeFrame (a b : Int) :
    headerOf "receipt" (unsubscribeFrame a b) = some (to_string b) := by
  simp only [headerOf, decode_unsubscribeFrame, Option.bind_some]
  rfl

theorem headerOf_receipt_disconnectFrame (b : Int) :
    headerOf "receipt" (disconnectFrame b) = some (to_string b) := by
  simp only [headerOf, decode_disconnectFrame, Option.bind_some]
  rfl

theorem receiptFramesOf_append (a b : List String) :
    receiptFramesOf (a ++ b) = receiptFramesOf a ++ receiptFramesOf b := by
  simp [receiptFramesOf]

/-- What `logout` does, in any state. -/
theorem processInput_logout (env : Env) (s : StompProtocol) (line : String)
    (hc : commandOf line = "logout") :
    processInput env s line = .ok
      { state := { s with
          receiptCounter := s.receiptCounter + 1
          receiptToCommand := StdMap.insert s.receiptCounter "DISCONNECT" s.receiptToCommand },
        frames := [disconnectFrame s.receiptCounter],
        written := none } := by
  unfold commandOf at hc
  have h₁ : ¬ ("logout" = "login") := by decide
  have h₂ : ¬ ("logout" = "join") := by decide
  have h₃ : ¬ ("logout" = "exit") := by decide
  simp [processInput, hc, h₁, h₂, h₃]

/-- One call of `processInput` either returns no frame that asks for a receipt
and leaves the receipt counter alone, or returns exactly one, whose `receipt`
header is the receipt counter, records that id as pending and moves the counter
up by one. -/
theorem receipt_step (env : Env) (s : StompProtocol) (line : String) (r : InputResult)
    (h : processInput env s line = .ok r) :
    (receiptFramesOf r.frames = [] ∧ r.state.receiptCounter = s.receiptCounter) ∨
      (∃ f, receiptFramesOf r.frames = [f] ∧
        headerOf "receipt" f = some (to_string s.receiptCounter) ∧
        r.state.receiptCounter = s.receiptCounter + 1 ∧
        (StdMap.find s.receiptCounter r.state.receiptToCommand).isSome = true) := by
  by_cases hj : commandOf line = "join"
  · have hg := extract_no_newline line 1
    rw [processInput_join env s line hj] at h
    cases h
    refine Or.inr ⟨subscribeFrame (extract (tokens line) 1 "") s.subscriptionCounter
      s.receiptCounter, ?_, headerOf_receipt_subscribeFrame _ _ _ hg, rfl, ?_⟩
    · simp [receiptFramesOf, verbOf_subscribeFrame _ _ _ hg]
    · simp [StdMap.find_insert_self]
  · by_cases he : commandOf line = "exit"
    · cases hf : StdMap.find (extract (tokens line) 1 "") s.channelToSubId with
      | none =>
        rw [processInput_exit_inactive env s line he hf] at h
        cases h
        exact Or.inl ⟨rfl, rfl⟩
      | some subId =>
        rw [processInput_exit_active env s line subId he hf] at h
        cases h
        refine Or.inr ⟨unsubscribeFrame subId s.receiptCounter, ?_,
          headerOf_receipt_unsubscribeFrame _ _, rfl, ?_⟩
        · simp [receiptFramesOf, verbOf_unsubscribeFrame]
        · simp [StdMap.find_insert_self]
    · by_cases ho : commandOf line = "logout"
      · rw [processInput_logout env s line ho] at h
        cases h
        refine Or.inr ⟨disconnectFrame s.receiptCounter, ?_,
          headerOf_receipt_disconnectFrame _, rfl, ?_⟩
        · simp [receiptFramesOf, verbOf_disconnectFrame]
        · simp [StdMap.find_insert_self]
      · left
        unfold commandOf at hj he ho
        unfold processInput at h
        simp only [hj, he, ho, if_false] at h
        split_ifs at h
        · cases h; exact ⟨rfl, rfl⟩
        · split at h
          · cases h
          · cases h
            refine ⟨?_, rfl⟩
            simp only [reportLoop_frames, List.nil_append, receiptFramesOf]
            rw [List.filter_eq_nil_iff]
            intro f hf
            obtain ⟨e, -, rfl⟩ := List.mem_map.mp hf
            simp [verbOf_sendFrame]
        · split at h <;> cases h <;> exact ⟨rfl, rfl⟩
        · cases h; exact ⟨rfl, rfl⟩

/-- From any state, the frames sent that ask for a receipt carry the ids
`receiptCounter, receiptCounter + 1, ...` in order. -/
theorem receipt_ids_from (env : Env) (s : StompProtocol) (lines : List String) :
    (receiptFramesOf (framesSent env s lines)).map (headerOf "receipt") =
      (List.range (receiptFramesOf (framesSent env s lines)).length).map
        (fun (k : Nat) => some (to_string (s.receiptCounter + (k : Int)))) := by
  induction lines generalizing s with
  | nil => simp [framesSent, receiptFramesOf]
  | cons line rest ih =>
    cases h : processInput env s line with
    | error e => simp [framesSent, h, receiptFramesOf]
    | ok r =>
      simp only [framesSent, h, receiptFramesOf_append]
      rcases receipt_step env s line r h with ⟨hnil, hctr⟩ | ⟨f, hone, hhead, hctr, -⟩
      · rw [hnil, List.nil_append, ih r.state, hctr]
      · rw [hone, List.singleton_append, List.map_cons, List.length_cons,
          List.range_succ_eq_map, List.map_cons, List.map_map, hhead, ih r.state, hctr]
        congr 1
        · simp
        · apply List.map_congr_left
          intro k _
          show some (to_string (s.receiptCounter + 1 + (k : Int))) =
            some (to_string (s.receiptCounter + ((k + 1 : Nat) : Int)))
          rw [Nat.cast_succ, add_assoc, add_comm (1 : Int)]

/-- The game name is what follows the last `/` of the destination. -/
theorem gameNameOf_after_slash (p g : List Char) (hg : '/' ∉ g) :
    gameNameOf (String.mk (p ++ '/' :: g)) = String.mk g := by
  unfold gameNameOf
  rw [if_pos (by simp)]
  have hrev : (p ++ '/' :: g).reverse = g.reverse ++ '/' :: p.reverse := by simp
  simp only [hrev]
  rw [takeWhile_ne_append '/' g.reverse p.reverse (by simpa using hg), List.reverse_reverse]

/-- A destination without `/` is the game name itself. -/
theorem gameNameOf_no_slash (d : String) (hd : '/' ∉ d.data) : gameNameOf d = d := by
  unfold gameNameOf
  rw [if_neg hd]

theorem gameKey_no_slash (a b : String) (ha : '/' ∉ a.data) (hb : '/' ∉ b.data) :
    '/' ∉ (a ++ "_" ++ b).data := by
  simp only [String.data_append, List.mem_append, not_or]
  exact ⟨⟨ha, by decide⟩, hb⟩

theorem gameNameOf_gameKey (p a b : String) (ha : '/' ∉ a.data) (hb : '/' ∉ b.data) :
    gameNameOf (p ++ "/" ++ a ++ "_" ++ b) = a ++ "_" ++ b := by
  have h : p ++ "/" ++ a ++ "_" ++ b = String.mk (p.data ++ '/' :: (a ++ "_" ++ b).data) := by
    apply String.ext
    simp only [String.data_append, List.append_assoc]
    rfl
  rw [h, gameNameOf_after_slash _ _ (gameKey_no_slash a b ha hb)]

/-- What `MESSAGE` does, in any state, when the reporting user is not the local
user and the body decodes. -/
theorem processServerFrame_message (env : Env) (s : StompProtocol) (frame : String)
    (d : Decoded) (e : Event) (hd : decode frame = some d) (hc : d.command = "MESSAGE")
    (hu : header "user" d.headers ≠ s.userName) (he : env.parseEvent d.body = some e) :
    processServerFrame env s frame = .ok
      { state := { s with
          gameReports := pushEvent (gameNameOf (header "destination" d.headers))
            (header "user" d.headers) e s.gameReports },
        console := "" } := by
  have hne₁ : ¬ ("MESSAGE" = "CONNECTED") := by decide
  have hne₂ : ¬ ("MESSAGE" = "ERROR") := by decide
  have hne₃ : ¬ ("MESSAGE" = "RECEIPT") := by decide
  simp [processServerFrame, hd, hc, hne₁, hne₂, hne₃, hu, he]

/-- What `MESSAGE` does, in any state, when the reporting user is not the local
user and the body does not decode. -/
theorem processServerFrame_message_bad (env : Env) (s : StompProtocol) (frame : String)
    (d : Decoded) (hd : decode frame = some d) (hc : d.command = "MESSAGE")
    (hu : header "user" d.headers ≠ s.userName) (he : env.parseEvent d.body = none) :
    processServerFrame env s frame = .ok { state := s, console := "" } := by
  have hne₁ : ¬ ("MESSAGE" = "CONNECTED") := by decide
  have hne₂ : ¬ ("MESSAGE" = "ERROR") := by decide
  have hne₃ : ¬ ("MESSAGE" = "RECEIPT") := by decide
  simp [processServerFrame, hd, hc, hne₁, hne₂, hne₃, hu, he]

theorem sendFrame_data (u : String) (n_e : names_and_events) (e : Event) :
    ∃ rest : List Char, (sendFrame u n_e e).data =
      "SEND".data ++ '\n' ::
        (("destination".data ++ ':' :: ('/' :: (n_e.team_a_name ++ "_" ++ n_e.team_b_name).data))
          ++ '\n' :: '\n' :: rest) := by
  refine ⟨(("user: " ++ u ++ "\n") ++
    ("team a: " ++ e.team_a_name ++ "\n") ++
    ("team b: " ++ e.team_b_name ++ "\n") ++
    ("event name: " ++ e.name ++ "\n") ++
    ("time: " ++ to_string e.time ++ "\n") ++
    "general game updates:\n" ++ updateLines e.game_updates ++
    "team a updates:\n" ++ updateLines e.team_a_updates ++
    "team b updates:\n" ++ updateLines e.team_b_updates ++
    ("description:\n" ++ e.description ++ "\n")).data, ?_⟩
  simp only [sendFrame, String.data_append, List.append_assoc, List.cons_append,
    List.nil_append, List.singleton_append]

/-- A SEND frame of `report` carries the destination `/teamA_teamB` when the
team names hold no line break. -/
theorem headerOf_destination_sendFrame (u : String) (n_e : names_and_events) (e : Event)
    (ha : '\n' ∉ n_e.team_a_name.data) (hb : '\n' ∉ n_e.team_b_name.data) :
    headerOf "destination" (sendFrame u n_e e) =
      some ("/" ++ (n_e.team_a_name ++ "_" ++ n_e.team_b_name)) := by
  obtain ⟨rest, hd⟩ := sendFrame_data u n_e e
  have hrl := readLine_append "SEND".data
    (("destination".data ++ ':' :: ('/' :: (n_e.team_a_name ++ "_" ++ n_e.team_b_name).data))
          ++ '\n' :: '\n' :: rest) (by decide)
  have h₁ : '\n' ∉ "destination".data ++ ':' ::
      ('/' :: (n_e.team_a_name ++ "_" ++ n_e.team_b_name).data) := by
    simp only [String.data_append, List.mem_append, List.mem_cons, not_or]
    exact ⟨by decide, by decide, by decide, ⟨ha, by decide⟩, hb⟩
  unfold headerOf decode
  rw [hd]
  rw [show "SEND".data ++ '\n' :: _ = 'S' :: ("END".data ++ '\n' :: _) from rfl] at hrl ⊢
  simp only [getline, hrl]
  rw [headerLoop_line _ _ _ h₁ (by simp) (by simp), headerLoop_blank,
    addHeader_split _ _ _ (by decide)]
  rfl

namespace StdMap

variable {K V : Type} [DecidableEq K]

theorem find_append (k : K) (l₁ l₂ : List (K × V)) :
    find k (l₁ ++ l₂) = (find k l₁).orElse (fun _ => find k l₂) := by
  induction l₁ with
  | nil => simp [find]
  | cons p rest ih =>
    obtain ⟨k₁, v₁⟩ := p
    by_cases h : k₁ = k
    · simp [find, h]
    · simp [find, h, ih]

theorem find_eq_none_iff (k : K) (m : List (K × V)) :
    find k m = none ↔ k ∉ m.map Prod.fst := by
  induction m with
  | nil => simp [find]
  | cons p rest ih =>
    obtain ⟨k₁, v₁⟩ := p
    by_cases h : k₁ = k
    · simp [find, h]
    · have h' : ¬ k = k₁ := fun e => h e.symm
      simp [find, h, h', ih]

theorem find_of_mem_nodup (k : K) (v : V) (m : List (K × V)) (hm : (k, v) ∈ m)
    (hn : (m.map Prod.fst).Nodup) : find k m = some v := by
  induction m with
  | nil => cases hm
  | cons p rest ih =>
    obtain ⟨k₁, v₁⟩ := p
    simp only [List.map_cons, List.nodup_cons] at hn
    rcases List.mem_cons.mp hm with heq | hmem
    · cases heq
      simp [find]
    · have hne : k₁ ≠ k := by
        rintro rfl
        exact hn.1 (List.mem_map.mpr ⟨(k₁, v), hmem, rfl⟩)
      simp [find, hne, ih hmem hn.2]

end StdMap

theorem insert_cons_same (k v v₁ : String) (rest : List (String × String)) :
    StdMap.insert k v ((k, v₁) :: rest) = (k, v) :: rest := by
  simp [StdMap.insert]

theorem insert_cons_less (k v k₁ v₁ : String) (rest : List (String × String))
    (h : k₁ ≠ k) (hl : KeyLess.less k k₁ = true) :
    StdMap.insert k v ((k₁, v₁) :: rest) = (k, v) :: (k₁, v₁) :: rest := by
  simp [StdMap.insert, h, hl]

theorem insert_cons_greater (k v k₁ v₁ : String) (rest : List (String × String))
    (h : k₁ ≠ k) (hl : ¬ KeyLess.less k k₁ = true) :
    StdMap.insert k v ((k₁, v₁) :: rest) = (k₁, v₁) :: StdMap.insert k v rest := by
  simp [StdMap.insert, h, hl]

theorem keys_insert (k v : String) (m : List (String × String)) :
    ∀ x ∈ (StdMap.insert k v m).map Prod.fst, x = k ∨ x ∈ m.map Prod.fst := by
  induction m with
  | nil => simp [StdMap.insert]
  | cons p rest ih =>
    obtain ⟨k₁, v₁⟩ := p
    intro x hx
    by_cases h : k₁ = k
    · subst h
      rw [insert_cons_same] at hx
      exact Or.inr hx
    · by_cases hl : KeyLess.less k k₁ = true
      · rw [insert_cons_less k v k₁ v₁ rest h hl] at hx
        rcases List.mem_cons.mp hx with hx | hx
        · exact Or.inl hx
        · exact Or.inr hx
      · rw [insert_cons_greater k v k₁ v₁ rest h hl] at hx
        rcases List.mem_cons.mp hx with hx | hx
        · exact Or.inr (List.mem_cons.mpr (Or.inl hx))
        · rcases ih x hx with hx | hx
          · exact Or.inl hx
          · exact Or.inr (List.mem_cons_of_mem _ hx)

theorem keyLess_iff (a b : String) : KeyLess.less a b = true ↔ a.data < b.data := by
  show decide (a.data < b.data) = true ↔ _
  simp

/-- Writing `m[k] = v` keeps the keys in ascending order. -/
theorem insert_ascending (k v : String) (m : List (String × String))
    (hm : KeysAscending m) : KeysAscending (StdMap.insert k v m) := by
  unfold KeysAscending at hm ⊢
  induction m with
  | nil => simp [StdMap.insert]
  | cons p rest ih =>
    obtain ⟨k₁, v₁⟩ := p
    simp only [List.map_cons, List.pairwise_cons] at hm
    obtain ⟨hhead, htail⟩ := hm
    by_cases h : k₁ = k
    · subst h
      rw [insert_cons_same]
      simp only [List.map_cons, List.pairwise_cons]
      exact ⟨hhead, htail⟩
    · by_cases hl : KeyLess.less k k₁ = true
      · have hlt : k.data < k₁.data := (keyLess_iff k k₁).mp hl
        rw [insert_cons_less k v k₁ v₁ rest h hl]
        simp only [List.map_cons, List.pairwise_cons, List.mem_cons]
        refine ⟨?_, hhead, htail⟩
        rintro x (rfl | hx)
        · exact hlt
        · exact lt_trans hlt (hhead x hx)
      · have hnlt : ¬ k.data < k₁.data := fun e => hl ((keyLess_iff k k₁).mpr e)
        have hne : k₁.data ≠ k.data := fun e => h (String.ext e)
        have hgt : k₁.data < k.data := by
          rcases lt_trichotomy k₁.data k.data with h₁ | h₁ | h₁
          · exact h₁
          · exact absurd h₁ hne
          · exact absurd h₁ hnlt
        rw [insert_cons_greater k v k₁ v₁ rest h hl]
        simp only [List.map_cons, List.pairwise_cons]
        refine ⟨?_, ih htail⟩
        intro x hx
        rcases keys_insert k v rest x hx with rfl | hx
        · exact hgt
        · exact hhead x hx

theorem foldUpdates_ascending (m acc : List (String × String)) (h : KeysAscending acc) :
    KeysAscending (foldUpdates m acc) := by
  unfold foldUpdates
  induction m generalizing acc with
  | nil => exact h
  | cons p rest ih => exact ih _ (insert_ascending _ _ _ h)

theorem statsFold_ascending (updates : Event → List (String × String)) (events : List Event)
    (acc : List (String × String)) (h : KeysAscending acc) :
    KeysAscending (events.foldl (fun a e => foldUpdates (updates e) a) acc) := by
  induction events generalizing acc with
  | nil => exact h
  | cons e rest ih => exact ih _ (foldUpdates_ascending _ _ h)

theorem find_foldUpdates (k : String) (m acc : List (String × String)) :
    StdMap.find k (foldUpdates m acc) =
      (StdMap.find k m.reverse).orElse (fun _ => StdMap.find k acc) := by
  unfold foldUpdates
  induction m generalizing acc with
  | nil => simp [StdMap.find]
  | cons p rest ih =>
    obtain ⟨k₁, v₁⟩ := p
    rw [List.foldl_cons, ih, List.reverse_cons, StdMap.find_append]
    by_cases h : k₁ = k
    · subst h
      cases StdMap.find k₁ rest.reverse <;> simp [StdMap.find, StdMap.find_insert_self]
    · cases StdMap.find k rest.reverse <;>
        simp [StdMap.find, h, StdMap.find_insert_ne _ _ _ _ h]

theorem find_statsFold (k : String) (updates : Event → List (String × String))
    (events : List Event) (acc : List (String × String)) :
    StdMap.find k (events.foldl (fun a e => foldUpdates (updates e) a) acc) =
      (lastWrite k (events.flatMap updates)).orElse (fun _ => StdMap.find k acc) := by
  unfold lastWrite
  induction events generalizing acc with
  | nil => simp [StdMap.find]
  | cons e rest ih =>
    rw [List.foldl_cons, ih, find_foldUpdates, List.flatMap_cons, List.reverse_append,
      StdMap.find_append]
    cases StdMap.find k (rest.flatMap updates).reverse <;> simp

/-- The accumulator holds, for every key, the last value written for it. -/
theorem find_statsOf (k : String) (updates : Event → List (String × String))
    (events : List Event) :
    StdMap.find k (statsOf updates events) = lastWrite k (events.flatMap updates) := by
  unfold statsOf
  rw [find_statsFold]
  cases lastWrite k (events.flatMap updates) <;> simp [StdMap.find]

/-- The last value written for a key is the one in the last event that holds
the key. -/
theorem lastWrite_last_event (k v : String) (updates : Event → List (String × String))
    (before after : List Event) (e : Event) (hm : (k, v) ∈ updates e)
    (hn : ((updates e).map Prod.fst).Nodup)
    (ha : ∀ e' ∈ after, k ∉ (updates e').map Prod.fst) :
    lastWrite k ((before ++ e :: after).flatMap updates) = some v := by
  unfold lastWrite
  have hafter : StdMap.find k (after.flatMap updates).reverse = none := by
    rw [StdMap.find_eq_none_iff]
    simp only [List.map_reverse, List.mem_reverse, List.mem_map, List.mem_flatMap,
      not_exists, not_and]
    rintro ⟨k', v'⟩ ⟨e', he', hp⟩ rfl
    exact ha e' he' (List.mem_map.mpr ⟨_, hp, rfl⟩)
  have he : StdMap.find k (updates e).reverse = some v :=
    StdMap.find_of_mem_nodup k v _ (List.mem_reverse.mpr hm)
      (by simpa [List.map_reverse] using hn)
  simp only [List.flatMap_append, List.flatMap_cons, List.reverse_append,
    StdMap.find_append, hafter, he]
  simp

theorem StdMap.mem_of_find {K V : Type} [DecidableEq K] (k : K) (v : V) (m : List (K × V))
    (h : StdMap.find k m = some v) : (k, v) ∈ m := by
  induction m with
  | nil => simp [StdMap.find] at h
  | cons p rest ih =>
    obtain ⟨k₁, v₁⟩ := p
    by_cases hk : k₁ = k
    · subst hk
      simp only [StdMap.find, if_true, Option.some.injEq] at h
      subst h
      exact List.mem_cons_self _ _
    · simp only [StdMap.find, hk, if_false] at h
      exact List.mem_cons_of_mem _ (ih h)

theorem keys_ascending_nodup (m : List (String × String)) (h : KeysAscending m) :
    (m.map Prod.fst).Nodup := by
  unfold KeysAscending at h
  exact h.imp (fun hlt heq => by
    rw [heq] at hlt
    exact lt_irrefl _ hlt)

/-- The keys of the accumulator are the keys that occur in some event. -/
theorem keys_statsOf (k : String) (updates : Event → List (String × String))
    (events : List Event) :
    k ∈ (statsOf updates events).map Prod.fst ↔
      ∃ e ∈ events, k ∈ (updates e).map Prod.fst := by
  have h₁ := StdMap.find_eq_none_iff k (statsOf updates events)
  have h₂ := StdMap.find_eq_none_iff k (events.flatMap updates).reverse
  rw [find_statsOf] at h₁
  unfold lastWrite at h₁
  have h₃ : k ∈ (statsOf updates events).map Prod.fst ↔
      k ∈ ((events.flatMap updates).reverse).map Prod.fst := by
    constructor
    · intro h
      by_contra hc
      exact (h₁.mp (h₂.mpr hc)) h
    · intro h
      by_contra hc
      exact (h₂.mp (h₁.mpr hc)) h
  rw [h₃]
  simp only [List.map_reverse, List.mem_reverse, List.mem_map, List.mem_flatMap]
  constructor
  · rintro ⟨p, ⟨e, he, hp⟩, rfl⟩
    exact ⟨e, he, p, hp, rfl⟩
  · rintro ⟨e, he, p, hp, rfl⟩
    exact ⟨p, ⟨e, he, hp⟩, rfl⟩

/-- A stats block is one line `key: value` per pair of the accumulator, in the
order of the accumulator. -/
theorem statLines_eq_join (m : List (String × String)) :
    statLines m = String.join (m.map (fun kv => kv.1 ++ ": " ++ kv.2 ++ "\n")) := by
  simp [statLines, String.join, List.foldl_map]

/-- The layout of the text written by `summary`. -/
theorem summaryText_layout (events : List Event) :
    summaryText events =
      (match events with
        | [] => ""
        | e :: _ => e.team_a_name ++ " vs " ++ e.team_b_name ++ "\n") ++
      "Game stats:\n" ++
      "General stats:\n" ++ statLines (statsOf Event.game_updates events) ++
      (match events with
        | [] => "Team A stats:\n"
        | e :: _ => e.team_a_name ++ " stats:\n") ++
      statLines (statsOf Event.team_a_updates events) ++
      (match events with
        | [] => "Team B stats:\n"
        | e :: _ => e.team_b_name ++ " stats:\n") ++
      statLines (statsOf Event.team_b_updates events) ++
      eventReports events := rfl

theorem pushEvent_nonEmpty (g u : String) (e : Event)
    (store : List (String × List (String × List Event))) (h : BucketsNonEmpty store) :
    BucketsNonEmpty (pushEvent g u e store) := by
  intro g' u' bucket hb
  by_cases hsame : g = g' ∧ u = u'
  · obtain ⟨rfl, rfl⟩ := hsame
    rw [bucketOf_pushEvent_self] at hb
    cases hb
    simp
  · rw [bucketOf_pushEvent_other g u g' u' e store hsame] at hb
    exact h g' u' bucket hb

theorem reportLoop_nonEmpty (u g : String) (n_e : names_and_events) (events : List Event)
    (store : List (String × List (String × List Event))) (frames : List String)
    (h : BucketsNonEmpty store) :
    BucketsNonEmpty (reportLoop u g n_e events store frames).1 := by
  induction events generalizing store frames with
  | nil => exact h
  | cons e rest ih => exact ih _ _ (pushEvent_nonEmpty _ _ _ _ h)

/-- `processInput` keeps every bucket of the event store non-empty. -/
theorem processInput_nonEmpty (env : Env) (s : StompProtocol) (line : String)
    (r : InputResult) (h : processInput env s line = .ok r)
    (hs : BucketsNonEmpty s.gameReports) : BucketsNonEmpty r.state.gameReports := by
  unfold processInput at h
  dsimp only at h
  split_ifs at h
  · cases h; exact hs
  · cases h; exact hs
  · split at h <;> cases h <;> exact hs
  · cases h; exact hs
  · split at h
    · cases h
    · cases h
      exact reportLoop_nonEmpty _ _ _ _ _ _ hs
  · split at h <;> cases h <;> exact hs
  · cases h; exact hs

/-- `processServerFrame` keeps every bucket of the event store non-empty. -/
theorem processServerFrame_nonEmpty (env : Env) (s : StompProtocol) (frame : String)
    (r : ServerResult) (h : processServerFrame env s frame = .ok r)
    (hs : BucketsNonEmpty s.gameReports) : BucketsNonEmpty r.state.gameReports := by
  unfold processServerFrame at h
  dsimp only at h
  split at h
  · cases h; exact hs
  · split_ifs at h
    · cases h; exact hs
    · cases h; exact hs
    · split at h
      · cases h
      · split at h
        · split_ifs at h <;> cases h <;> exact hs
        · cases h; exact hs
    · cases h; exact hs
    · split at h
      · cases h
        exact pushEvent_nonEmpty _ _ _ _ hs
      · cases h; exact hs
    · cases h; exact hs

/-- Every session keeps every bucket of the event store non-empty. -/
theorem runCalls_nonEmpty (env : Env) (s s' : StompProtocol) (calls : List Call)
    (h : runCalls env s calls = .ok s') (hs : BucketsNonEmpty s.gameReports) :
    BucketsNonEmpty s'.gameReports := by
  induction calls generalizing s with
  | nil =>
    simp only [runCalls, Except.ok.injEq] at h
    subst h
    exact hs
  | cons call rest ih =>
    cases call with
    | input line =>
      simp only [runCalls] at h
      split at h
      · cases h
      · rename_i r hr
        exact ih r.state h (processInput_nonEmpty env s line r hr hs)
    | frame f =>
      simp only [runCalls] at h
      split at h
      · cases h
      · rename_i r hr
        exact ih r.state h (processServerFrame_nonEmpty env s f r hr hs)

/-- What `summary` does, in any state. -/
theorem processInput_summary_any (env : Env) (s : StompProtocol) (line : String)
    (hc : commandOf line = "summary") :
    processInput env s line = .ok
      { state := s, frames := [],
        written :=
          (bucketOf (extract (tokens line) 1 "") (extract (tokens line) 2 "")
            s.gameReports).map
            (fun bucket => (extract (tokens line) 3 "", summaryText (env.sort bucket))) } := by
  unfold commandOf at hc
  have h₁ : ¬ ("summary" = "login") := by decide
  have h₂ : ¬ ("summary" = "join") := by decide
  have h₃ : ¬ ("summary" = "exit") := by decide
  have h₄ : ¬ ("summary" = "logout") := by decide
  have h₅ : ¬ ("summary" = "report") := by decide
  cases hb : bucketOf (extract (tokens line) 1 "") (extract (tokens line) 2 "")
      s.gameReports <;>
    simp [processInput, hc, h₁, h₂, h₃, h₄, h₅, hb]

theorem readLine_no_newline (l : List Char) (hnl : '\n' ∉ l) : readLine l = (l, []) := by
  induction l with
  | nil => rfl
  | cons c cs ih =>
    have hc : c ≠ '\n' := fun h => hnl (by simp [h])
    have hcs : '\n' ∉ cs := fun h => hnl (by simp [h])
    simp [readLine, hc, ih hcs]

/-- Decoding a frame whose first line ends with a line break. -/
theorem decode_frame (verb rest : List Char) (hv : '\n' ∉ verb) :
    decode (String.mk (verb ++ '\n' :: rest)) =
      some { command := String.mk verb,
             headers := (headerLoop rest.length rest []).1,
             body := String.mk (headerLoop rest.length rest []).2 } := by
  have hrl := readLine_append verb rest hv
  unfold decode
  cases hl : verb ++ '\n' :: rest with
  | nil => simp at hl
  | cons c cs =>
    rw [hl] at hrl
    simp [getline, hrl]

/-- Decoding a frame that is a single line without a line break. -/
theorem decode_verb_only (verb : List Char) (hv : '\n' ∉ verb) (hne : verb ≠ []) :
    decode (String.mk verb) =
      some { command := String.mk verb, headers := [], body := "" } := by
  have hrl := readLine_no_newline verb hv
  unfold decode
  cases hl : verb with
  | nil => exact absurd hl hne
  | cons c cs =>
    rw [hl] at hrl
    simp only [getline, hrl, List.length_nil, headerLoop]

theorem headerLoop_cr (rest : List Char) (h : List (String × String)) :
    headerLoop ('\r' :: '\n' :: rest).length ('\r' :: '\n' :: rest) h = (h, rest) := by
  simp [headerLoop, getline, readLine]

theorem headerLine_facts (l : HeaderLine) (hl : l.wellFormed = true) :
    '\n' ∉ l.text ∧ l.text ≠ [] ∧ l.text ≠ ['\r'] := by
  cases l with
  | pair key value =>
    simp only [HeaderLine.wellFormed, decide_eq_true_eq] at hl
    obtain ⟨-, hk, hv⟩ := hl
    refine ⟨?_, by simp [HeaderLine.text], ?_⟩
    · simp only [HeaderLine.text, List.mem_append, List.mem_cons, not_or]
      exact ⟨hk, by decide, hv⟩
    · intro h
      have hm : ':' ∈ HeaderLine.text (.pair key value) := by simp [HeaderLine.text]
      rw [h] at hm
      simp at hm
  | plain text =>
    simp only [HeaderLine.wellFormed, decide_eq_true_eq] at hl
    exact ⟨hl.2.1, hl.2.2.1, hl.2.2.2⟩

theorem addHeader_headerLine (l : HeaderLine) (hl : l.wellFormed = true)
    (h : List (String × String)) : addHeader l.text h = l.apply h := by
  cases l with
  | pair key value =>
    simp only [HeaderLine.wellFormed, decide_eq_true_eq] at hl
    exact addHeader_split key value h hl.1
  | plain text =>
    simp only [HeaderLine.wellFormed, decide_eq_true_eq] at hl
    simp [addHeader, HeaderLine.text, HeaderLine.apply, hl.1]

/-- The header loop reads a header section line by line. -/
theorem headerLoop_section (ls : List HeaderLine) (rest : List Char)
    (h : List (String × String)) (hls : ∀ l ∈ ls, l.wellFormed = true) :
    headerLoop (headerSection ls ++ rest).length (headerSection ls ++ rest) h =
      headerLoop rest.length rest (ls.foldl (fun headers l => l.apply headers) h) := by
  induction ls generalizing h with
  | nil => simp [headerSection]
  | cons l ls ih =>
    obtain ⟨hnl, hne, hcr⟩ := headerLine_facts l (hls l (List.mem_cons_self _ _))
    have hshape : headerSection (l :: ls) ++ rest =
        l.text ++ '\n' :: (headerSection ls ++ rest) := by
      simp [headerSection]
    rw [hshape, headerLoop_line _ _ _ hnl hne hcr,
      ih _ (fun l' hl' => hls l' (List.mem_cons_of_mem _ hl')),
      addHeader_headerLine l (hls l (List.mem_cons_self _ _)), List.foldl_cons]

/-- The ids read off the frames of one concrete session: four frames ask for a
receipt, the two SEND frames of the report do not, and the second `exit` of the
same channel sends nothing. -/
theorem receipt_ids_example :
    (receiptFramesOf (framesSent (sampleEnv sortByTime) (StompProtocol.init true)
      ["join a", "report events.txt", "join b", "exit a", "exit a", "logout"])).map
        (headerOf "receipt") = [some "0", some "1", some "2", some "3"] ∧
    (subscribeFramesOf (framesSent (sampleEnv sortByTime) (StompProtocol.init true)
      ["join a", "report events.txt", "join b", "exit a", "exit a", "logout"])).map
        (headerOf "id") = [some "0", some "1"] := by
  constructor <;> rfl

/-- The lines of an update mapping in a SEND frame: one line
`<tab>key: value` per pair, in the order of the mapping. -/
theorem updateLines_eq_join (m : List (String × String)) :
    updateLines m = String.join (m.map (fun kv => "\t" ++ kv.1 ++ ": " ++ kv.2 ++ "\n")) := by
  simp [updateLines, String.join, List.foldl_map]

/-- The "Game event reports:" block: the title, then one entry
`<time> - <name>:`, blank line, description, blank line per event, in order. -/
theorem eventReports_eq_join (events : List Event) :
    eventReports events =
      "Game event reports:\n" ++
        String.join (events.map (fun e =>
          toString e.time ++ " - " ++ e.name ++ ":\n\n" ++ e.description ++ "\n\n")) := by
  simp [eventReports, eventReport, to_string, String.join, List.foldl_map]

/-- The text of the SEND frame of one event. -/
theorem sendFrame_text (userName : String) (n_e : names_and_events) (event : Event) :
    sendFrame userName n_e event =
      "SEND\n" ++
      ("destination:/" ++ n_e.team_a_name ++ "_" ++ n_e.team_b_name ++ "\n\n") ++
      ("user: " ++ userName ++ "\n") ++
      ("team a: " ++ event.team_a_name ++ "\n") ++
      ("team b: " ++ event.team_b_name ++ "\n") ++
      ("event name: " ++ event.name ++ "\n") ++
      ("time: " ++ toString event.time ++ "\n") ++
      "general game updates:\n" ++
      String.join (event.game_updates.map
        (fun kv => "\t" ++ kv.1 ++ ": " ++ kv.2 ++ "\n")) ++
      "team a updates:\n" ++
      String.join (event.team_a_updates.map
        (fun kv => "\t" ++ kv.1 ++ ": " ++ kv.2 ++ "\n")) ++
      "team b updates:\n" ++
      String.join (event.team_b_updates.map
        (fun kv => "\t" ++ kv.1 ++ ": " ++ kv.2 ++ "\n")) ++
      ("description:\n" ++ event.description ++ "\n") := by
  simp only [sendFrame, updateLines_eq_join, to_string]

/-- The whole text written by `summary`, line by line. -/
theorem summaryText_lines (events : List Event) :
    summaryText events =
      (match events with
        | [] => ""
        | e :: _ => e.team_a_name ++ " vs " ++ e.team_b_name ++ "\n") ++
      "Game stats:\n" ++
      "General stats:\n" ++
      String.join ((statsOf Event.game_updates events).map
        (fun kv => kv.1 ++ ": " ++ kv.2 ++ "\n")) ++
      (match events with
        | [] => "Team A stats:\n"
        | e :: _ => e.team_a_name ++ " stats:\n") ++
      String.join ((statsOf Event.team_a_updates events).map
        (fun kv => kv.1 ++ ": " ++ kv.2 ++ "\n")) ++
      (match events with
        | [] => "Team B stats:\n"
        | e :: _ => e.team_b_name ++ " stats:\n") ++
      String.join ((statsOf Event.team_b_updates events).map
        (fun kv => kv.1 ++ ": " ++ kv.2 ++ "\n")) ++
      ("Game event reports:\n" ++
        String.join (events.map (fun e =>
          toString e.time ++ " - " ++ e.name ++ ":\n\n" ++ e.description ++ "\n\n"))) := by
  rw [summaryText_layout, eventReports_eq_join, statLines_eq_join, statLines_eq_join,
    statLines_eq_join]

/-- A list either misses `x` or splits at its first `x`. -/
theorem split_first (x : Char) (l : List Char) :
    x ∉ l ∨ ∃ a b, l = a ++ x :: b ∧ x ∉ a := by
  induction l with
  | nil => exact Or.inl (by simp)
  | cons c cs ih =>
    by_cases hc : c = x
    · exact Or.inr ⟨[], cs, by simp [hc], by simp⟩
    · rcases ih with h | ⟨a, b, hab, ha⟩
      · left
        intro hm
        rcases List.mem_cons.mp hm with hm | hm
        · exact hc hm.symm
        · exact h hm
      · right
        refine ⟨c :: a, b, by simp [hab], ?_⟩
        intro hm
        rcases List.mem_cons.mp hm with hm | hm
        · exact hc hm.symm
        · exact ha hm

/-- A line that does not end the headers is a header line. -/
theorem line_is_headerLine (line : List Char) (hnl : '\n' ∉ line) (hne : line ≠ [])
    (hcr : line ≠ ['\r']) : ∃ l : HeaderLine, l.wellFormed = true ∧ l.text = line := by
  rcases split_first ':' line with h | ⟨a, b, hab, ha⟩
  · exact ⟨.plain line, by simp [HeaderLine.wellFormed, h, hnl, hne, hcr], rfl⟩
  · subst hab
    have hna : '\n' ∉ a := fun hm => hnl (by simp [hm])
    have hnb : '\n' ∉ b := fun hm => hnl (by simp [hm])
    exact ⟨.pair a b, by simp [HeaderLine.wellFormed, ha, hna, hnb], rfl⟩

theorem headerSection_cons (l : HeaderLine) (ls : List HeaderLine) :
    headerSection (l :: ls) = l.text ++ '\n' :: headerSection ls := by
  simp [headerSection]

theorem header_section_shapes_aux (n : Nat) : ∀ rest : List Char, rest.length ≤ n →
    ∃ ls : List HeaderLine, (∀ l ∈ ls, l.wellFormed = true) ∧
      (rest = headerSection ls ∨
        (∃ body, rest = headerSection ls ++ '\n' :: body) ∨
        (∃ body, rest = headerSection ls ++ '\r' :: '\n' :: body) ∨
        rest = headerSection ls ++ ['\r'] ∨
        ∃ last : HeaderLine, last.wellFormed = true ∧
          rest = headerSection ls ++ last.text) := by
  induction n with
  | zero =>
    intro rest hlen
    have hnil : rest = [] := List.eq_nil_of_length_eq_zero (by omega)
    exact ⟨[], by simp, Or.inl (by simp [hnil, headerSection])⟩
  | succ n ih =>
    intro rest hlen
    rcases split_first '\n' rest with hno | ⟨a, b, hab, ha⟩
    · by_cases hnil : rest = []
      · exact ⟨[], by simp, Or.inl (by simp [hnil, headerSection])⟩
      · by_cases hcr : rest = ['\r']
        · exact ⟨[], by simp, Or.inr (Or.inr (Or.inr (Or.inl (by simp [hcr, headerSection]))))⟩
        · obtain ⟨last, hw, ht⟩ := line_is_headerLine rest hno hnil hcr
          exact ⟨[], by simp,
            Or.inr (Or.inr (Or.inr (Or.inr ⟨last, hw, by simp [ht, headerSection]⟩)))⟩
    · by_cases hnil : a = []
      · subst hnil
        exact ⟨[], by simp, Or.inr (Or.inl ⟨b, by simp [hab, headerSection]⟩)⟩
      · by_cases hcr : a = ['\r']
        · subst hcr
          exact ⟨[], by simp, Or.inr (Or.inr (Or.inl ⟨b, by simp [hab, headerSection]⟩))⟩
        · obtain ⟨l, hw, ht⟩ := line_is_headerLine a ha hnil hcr
          have hb : b.length ≤ n := by
            rw [hab] at hlen
            simp at hlen
            omega
          obtain ⟨ls, hls, hshape⟩ := ih b hb
          refine ⟨l :: ls, ?_, ?_⟩
          · intro l' hl'
            rcases List.mem_cons.mp hl' with rfl | hl'
            · exact hw
            · exact hls l' hl'
          · have hrest : rest = l.text ++ '\n' :: b := by rw [ht, hab]
            rcases hshape with h | ⟨body, h⟩ | ⟨body, h⟩ | h | ⟨last, hlw, h⟩
            · exact Or.inl (by rw [hrest, h, headerSection_cons])
            · exact Or.inr (Or.inl ⟨body, by rw [hrest, h, headerSection_cons]; simp⟩)
            · exact Or.inr (Or.inr (Or.inl ⟨body, by
                rw [hrest, h, headerSection_cons]; simp⟩))
            · exact Or.inr (Or.inr (Or.inr (Or.inl (by
                rw [hrest, h, headerSection_cons]; simp))))
            · exact Or.inr (Or.inr (Or.inr (Or.inr ⟨last, hlw, by
                rw [hrest, h, headerSection_cons]; simp⟩)))

/-- Whatever follows the verb line is a run of header lines followed by one of:
nothing, an empty line and a body, a lone carriage return line and a body, a
lone carriage return without a line break, or a last header line without a line
break. -/
theorem header_section_shapes (rest : List Char) :
    ∃ ls : List HeaderLine, (∀ l ∈ ls, l.wellFormed = true) ∧
      (rest = headerSection ls ∨
        (∃ body, rest = headerSection ls ++ '\n' :: body) ∨
        (∃ body, rest = headerSection ls ++ '\r' :: '\n' :: body) ∨
        rest = headerSection ls ++ ['\r'] ∨
        ∃ last : HeaderLine, last.wellFormed = true ∧
          rest = headerSection ls ++ last.text) :=
  header_section_shapes_aux rest.length rest (le_refl _)

/-- A frame that is not empty is a verb line alone, or a verb line, a line
break and what follows. -/
theorem frame_shapes (frame : String) (hne : frame.data ≠ []) :
    ∃ verb : List Char, '\n' ∉ verb ∧
      ((verb ≠ [] ∧ frame = String.mk verb) ∨
        ∃ rest, frame = String.mk (verb ++ '\n' :: rest)) := by
  rcases split_first '\n' frame.data with h | ⟨a, b, hab, ha⟩
  · exact ⟨frame.data, h, Or.inl ⟨hne, rfl⟩⟩
  · exact ⟨a, ha, Or.inr ⟨b, String.ext hab⟩⟩

/-! ## Properties of the protocol engine -/

/-- C1: from a freshly constructed protocol, for every sequence of command
lines, the `id` headers of the SUBSCRIBE frames sent are, in emission order,
the decimal renderings of the ids `0, 1, 2, ...` (the k-th join gets id k), so
the ids are strictly increasing and pairwise distinct whatever `exit`s and
repeated `join`s lie in between; when no command throws, there is one such
frame per `join` command. -/
theorem subscribe_ids_strictly_increasing (env : Env) (loggedIn : Bool)
    (lines : List String) :
    ∃ ids : List Int,
      (subscribeFramesOf (framesSent env (StompProtocol.init loggedIn) lines)).map
          (headerOf "id") = ids.map (fun i => some (to_string i)) ∧
      ids = (List.range ids.length).map (fun (k : Nat) => (k : Int)) ∧
      ids.Pairwise (fun a b => a < b) ∧
      ∀ s' frames, runInputs env (StompProtocol.init loggedIn) lines = .ok (s', frames) →
        ids.length = (lines.filter (fun l => commandOf l = "join")).length := by
  refine ⟨(List.range (subscribeFramesOf
    (framesSent env (StompProtocol.init loggedIn) lines)).length).map
      (fun (k : Nat) => (k : Int)), ?_, ?_, ?_, ?_⟩
  · rw [subscribe_ids_from, List.map_map]
    apply List.map_congr_left
    intro k _
    simp [StompProtocol.init]
  · simp
  · rw [List.pairwise_map]
    exact (List.pairwise_lt_range _).imp (fun h => by exact_mod_cast h)
  · intro s' frames h
    obtain ⟨h₁, h₂⟩ := subscribe_count env _ s' lines frames h
    simp [h₁, h₂]

/-- C2, as stated, fails: after `join a` the receipt id 0 is pending; handling
`RECEIPT` with `receipt-id:0` shows the action text and leaves the state as it
was, id 0 still pending, so a second `RECEIPT` for id 0 shows the text again. -/
theorem receipt_consumed_once_counterexample :
    processInput (sampleEnv sortByTime) (StompProtocol.init true) "join a" =
        .ok { state := joinedState,
              frames := ["SUBSCRIBE\ndestination:/a\nid:0\nreceipt:0\n\n"],
              written := none } ∧
      processServerFrame (sampleEnv sortByTime) joinedState "RECEIPT\nreceipt-id:0\n\n" =
        .ok { state := joinedState, console := "Joined channel a\n" } ∧
      StdMap.find 0 joinedState.receiptToCommand = some "Joined channel a" ∧
      runFrames (sampleEnv sortByTime) joinedState
          ["RECEIPT\nreceipt-id:0\n\n", "RECEIPT\nreceipt-id:0\n\n"] =
        .ok (joinedState, "Joined channel a\nJoined channel a\n") :=
  ⟨rfl, rfl, rfl, rfl⟩

/-- C2, amended: handling a `RECEIPT` frame for a pending receipt id leaves the
pending-receipt map unchanged (the id stays pending with the same action), and
handling the same frame a second time does again what the first did: the same
result, with the same text shown. -/
theorem receipt_stays_pending (env : Env) (s : StompProtocol) (frame : String)
    (d : Decoded) (r : Int) (action : String)
    (hd : decode frame = some d) (hc : d.command = "RECEIPT")
    (hr : stoi (header "receipt-id" d.headers) = .ok r)
    (hp : StdMap.find r s.receiptToCommand = some action) :
    ∃ r₁, processServerFrame env s frame = .ok r₁ ∧
      r₁.state.receiptToCommand = s.receiptToCommand ∧
      StdMap.find r r₁.state.receiptToCommand = some action ∧
      processServerFrame env r₁.state frame = .ok r₁ := by
  have hne₁ : ¬ ("RECEIPT" = "CONNECTED") := by decide
  have hne₂ : ¬ ("RECEIPT" = "ERROR") := by decide
  by_cases hx : containsSub "DISCONNECT".data action.data = true
  · refine ⟨{ state := { s with shouldContinue := false }, console := "" }, ?_, rfl, hp, ?_⟩
    · simp [processServerFrame, hd, hc, hne₁, hne₂, hr, hp, hx]
    · simp [processServerFrame, hd, hc, hne₁, hne₂, hr, hp, hx]
  · refine ⟨{ state := s, console := action ++ "\n" }, ?_, rfl, hp, ?_⟩
    · simp [processServerFrame, hd, hc, hne₁, hne₂, hr, hp, hx]
    · simp [processServerFrame, hd, hc, hne₁, hne₂, hr, hp, hx]

/-- The amended C2 at the state after `join a` and the frame
`RECEIPT`, `receipt-id:0`. -/
theorem receipt_stays_pending_witness :
    ∃ r₁, processServerFrame (sampleEnv sortByTime) joinedState "RECEIPT\nreceipt-id:0\n\n" =
        .ok r₁ ∧
      r₁.state.receiptToCommand = joinedState.receiptToCommand ∧
      StdMap.find 0 r₁.state.receiptToCommand = some "Joined channel a" ∧
      processServerFrame (sampleEnv sortByTime) r₁.state "RECEIPT\nreceipt-id:0\n\n" = .ok r₁ :=
  receipt_stays_pending (sampleEnv sortByTime) joinedState "RECEIPT\nreceipt-id:0\n\n"
    { command := "RECEIPT", headers := [("receipt-id", "0")], body := "" } 0
    "Joined channel a" rfl rfl rfl rfl

/-- C3 at its failing input: after `join DISCONNECT` the receipt id 0 carries
the action `Joined channel DISCONNECT`, recorded by `join`; handling `RECEIPT`
with `receipt-id:0` sets the continuation flag to false and shows nothing. -/
theorem join_receipt_taken_for_disconnect :
    processInput (sampleEnv sortByTime) (StompProtocol.init true) "join DISCONNECT" =
        .ok { state := joinedDisconnectState,
              frames := ["SUBSCRIBE\ndestination:/DISCONNECT\nid:0\nreceipt:0\n\n"],
              written := none } ∧
      joinedDisconnectState.shouldContinue = true ∧
      processServerFrame (sampleEnv sortByTime) joinedDisconnectState
          "RECEIPT\nreceipt-id:0\n\n" =
        .ok { state := { joinedDisconnectState with shouldContinue := false },
              console := "" } :=
  ⟨rfl, rfl, rfl⟩

/-- C4 at its failing inputs: a `RECEIPT` frame without a `receipt-id` header,
or with one that does not start with a number, makes `std::stoi` throw
`invalid_argument` out of `processServerFrame`, in every state; a number
outside the `int` range makes it throw `out_of_range`. -/
theorem receipt_without_number_throws (env : Env) (s : StompProtocol) :
    processServerFrame env s "RECEIPT\n\n" = .error .invalid_argument ∧
      processServerFrame env s "RECEIPT" = .error .invalid_argument ∧
      processServerFrame env s "RECEIPT\nreceipt-id:abc\n\n" = .error .invalid_argument ∧
      processServerFrame env s "RECEIPT\nreceipt-id:99999999999\n\n" = .error .out_of_range :=
  ⟨rfl, rfl, rfl, rfl⟩

/-- C8: in every state, a `MESSAGE` frame whose `user` header equals the local
user name leaves the event store and the rest of the protocol state exactly as
they were and prints nothing, whatever its destination and body are; so does
any number of repetitions of the frame. -/
theorem own_message_ignored (env : Env) (s : StompProtocol) (frame : String) (d : Decoded)
    (hd : decode frame = some d) (hc : d.command = "MESSAGE")
    (hu : header "user" d.headers = s.userName) :
    processServerFrame env s frame = .ok { state := s, console := "" } ∧
      ∀ n : Nat, runFrames env s (List.replicate n frame) = .ok (s, "") := by
  have hne₁ : ¬ ("MESSAGE" = "CONNECTED") := by decide
  have hne₂ : ¬ ("MESSAGE" = "ERROR") := by decide
  have hne₃ : ¬ ("MESSAGE" = "RECEIPT") := by decide
  have h₁ : processServerFrame env s frame = .ok { state := s, console := "" } := by
    simp [processServerFrame, hd, hc, hne₁, hne₂, hne₃, hu]
  refine ⟨h₁, ?_⟩
  intro n
  induction n with
  | zero => rfl
  | succ k ih =>
    simp only [List.replicate_succ, runFrames, h₁, ih]
    rfl

/-- C8 at a session of user `alice` receiving her own report back. -/
theorem own_message_ignored_witness :
    processServerFrame (sampleEnv sortByTime) aliceState
        "MESSAGE\ndestination:/chelsea_arsenal\nuser:alice\n\nbody" =
        .ok { state := aliceState, console := "" } ∧
      ∀ n : Nat, runFrames (sampleEnv sortByTime) aliceState
        (List.replicate n "MESSAGE\ndestination:/chelsea_arsenal\nuser:alice\n\nbody") =
          .ok (aliceState, "") :=
  own_message_ignored (sampleEnv sortByTime) aliceState
    "MESSAGE\ndestination:/chelsea_arsenal\nuser:alice\n\nbody"
    { command := "MESSAGE",
      headers := [("destination", "/chelsea_arsenal"), ("user", "alice")],
      body := "body" } rfl rfl rfl

/-- C10: in every state, a frame whose command line is `ERROR` sets the
continuation flag to false and changes nothing else: the subscription
registry, the receipt tracker, the event store, the counters and the user name
stay as they were. The `message` header (empty when absent) and the body are
printed. -/
theorem error_frame_stops_session (env : Env) (s : StompProtocol) (frame : String)
    (d : Decoded) (hd : decode frame = some d) (hc : d.command = "ERROR") :
    processServerFrame env s frame =
      .ok { state := { s with shouldContinue := false },
            console := "Error received: " ++ header "message" d.headers ++ "\n" ++
              d.body ++ "\n" } := by
  have hne₁ : ¬ ("ERROR" = "CONNECTED") := by decide
  simp [processServerFrame, hd, hc, hne₁]

/-- C10 at the frame `ERROR`, `message:bad request` received after `join a`. -/
theorem error_frame_stops_session_witness :
    processServerFrame (sampleEnv sortByTime) joinedState
        "ERROR\nmessage:bad request\n\nno such channel" =
      .ok { state := { joinedState with shouldContinue := false },
            console := "Error received: bad request\nno such channel\n" } :=
  error_frame_stops_session (sampleEnv sortByTime) joinedState
    "ERROR\nmessage:bad request\n\nno such channel"
    { command := "ERROR", headers := [("message", "bad request")],
      body := "no such channel" } rfl rfl

/-- C5: when the event file parses to `n_e`, `report` returns one SEND frame
per event, in file order whatever the timestamps are, and the i-th frame is the
text spelled out below for the i-th event: the destination `/teamA_teamB`, the
user, the event's team names, name and timestamp, one line `<tab>key: value`
per pair of each of its three update mappings, and its description. The bucket
of the game `teamA_teamB` and the local user is the bucket it was (empty when
absent) followed by the events of the file in file order; no other part of the
state changes and no file is written. -/
theorem report_frames_in_file_order (env : Env) (s : StompProtocol) (line : String)
    (n_e : names_and_events) (hc : commandOf line = "report")
    (hf : env.parseEventsFile (extract (tokens line) 1 "") = some n_e) :
    ∃ r, processInput env s line = .ok r ∧
      r.frames = n_e.events.map (fun event =>
        "SEND\n" ++
        ("destination:/" ++ n_e.team_a_name ++ "_" ++ n_e.team_b_name ++ "\n\n") ++
        ("user: " ++ s.userName ++ "\n") ++
        ("team a: " ++ event.team_a_name ++ "\n") ++
        ("team b: " ++ event.team_b_name ++ "\n") ++
        ("event name: " ++ event.name ++ "\n") ++
        ("time: " ++ toString event.time ++ "\n") ++
        "general game updates:\n" ++
        String.join (event.game_updates.map
          (fun kv => "\t" ++ kv.1 ++ ": " ++ kv.2 ++ "\n")) ++
        "team a updates:\n" ++
        String.join (event.team_a_updates.map
          (fun kv => "\t" ++ kv.1 ++ ": " ++ kv.2 ++ "\n")) ++
        "team b updates:\n" ++
        String.join (event.team_b_updates.map
          (fun kv => "\t" ++ kv.1 ++ ": " ++ kv.2 ++ "\n")) ++
        ("description:\n" ++ event.description ++ "\n")) ∧
      r.frames.length = n_e.events.length ∧
      (bucketOf (n_e.team_a_name ++ "_" ++ n_e.team_b_name) s.userName
          r.state.gameReports).getD [] =
        (bucketOf (n_e.team_a_name ++ "_" ++ n_e.team_b_name) s.userName
          s.gameReports).getD [] ++ n_e.events ∧
      r.state = { s with gameReports := r.state.gameReports } ∧
      r.written = none := by
  refine ⟨_, processInput_report env s line n_e hc hf, ?_, ?_, ?_, rfl, rfl⟩
  · simp only [reportLoop_frames, List.nil_append]
    exact List.map_congr_left (fun e _ => sendFrame_text s.userName n_e e)
  · simp [reportLoop_frames]
  · exact reportLoop_bucket _ _ _ _ _ _

/-- C5 at `report events.txt` in `alice`'s session: the two events, timestamped
90 then 45, give the two SEND frames written out below, in that order, and the
bucket `[90, 45]`. -/
theorem report_frames_in_file_order_witness :
    processInput (sampleEnv sortByTime) aliceState "report events.txt" =
      .ok { state := reportedState,
            frames :=
              ["SEND\ndestination:/chelsea_arsenal\n\nuser: alice\nteam a: chelsea\n" ++
               "team b: arsenal\nevent name: late\ntime: 90\ngeneral game updates:\n" ++
               "\tactive: true\nteam a updates:\n\tgoals: late\nteam b updates:\n" ++
               "description:\nlate!\n",
               "SEND\ndestination:/chelsea_arsenal\n\nuser: alice\nteam a: chelsea\n" ++
               "team b: arsenal\nevent name: early\ntime: 45\ngeneral game updates:\n" ++
               "\tactive: true\nteam a updates:\n\tgoals: early\nteam b updates:\n" ++
               "description:\nearly!\n"],
            written := none } ∧
    ∃ r, processInput (sampleEnv sortByTime) aliceState "report events.txt" = .ok r ∧
      r.frames = sampleFile.events.map (fun event =>
        "SEND\n" ++
        ("destination:/" ++ sampleFile.team_a_name ++ "_" ++ sampleFile.team_b_name ++
          "\n\n") ++
        ("user: " ++ aliceState.userName ++ "\n") ++
        ("team a: " ++ event.team_a_name ++ "\n") ++
        ("team b: " ++ event.team_b_name ++ "\n") ++
        ("event name: " ++ event.name ++ "\n") ++
        ("time: " ++ toString event.time ++ "\n") ++
        "general game updates:\n" ++
        String.join (event.game_updates.map
          (fun kv => "\t" ++ kv.1 ++ ": " ++ kv.2 ++ "\n")) ++
        "team a updates:\n" ++
        String.join (event.team_a_updates.map
          (fun kv => "\t" ++ kv.1 ++ ": " ++ kv.2 ++ "\n")) ++
        "team b updates:\n" ++
        String.join (event.team_b_updates.map
          (fun kv => "\t" ++ kv.1 ++ ": " ++ kv.2 ++ "\n")) ++
        ("description:\n" ++ event.description ++ "\n")) ∧
      r.frames.length = sampleFile.events.length ∧
      (bucketOf (sampleFile.team_a_name ++ "_" ++ sampleFile.team_b_name) aliceState.userName
          r.state.gameReports).getD [] =
        (bucketOf (sampleFile.team_a_name ++ "_" ++ sampleFile.team_b_name)
          aliceState.userName aliceState.gameReports).getD [] ++ sampleFile.events ∧
      r.state = { aliceState with gameReports := r.state.gameReports } ∧
      r.written = none :=
  ⟨rfl, report_frames_in_file_order (sampleEnv sortByTime) aliceState "report events.txt"
    sampleFile rfl rfl⟩

/-- C6: when the bucket of the game and user named by `summary` exists, the
text written is the text spelled out below for a list `sorted` that is a
rearrangement of the bucket (no event lost, none duplicated) in non-decreasing
timestamp order: after the header and the three stats blocks comes the block
"Game event reports:" with one entry `<time> - <name>:`, blank line,
description, blank line per event of `sorted`, in the order of `sorted`.
`summary` returns no frame and leaves the state unchanged. In particular a
bucket holding two events in decreasing time order is written with the earlier
event first. -/
theorem summary_events_sorted (env : Env) (s : StompProtocol) (line : String)
    (bucket : List Event) (hs : SortContract env.sort)
    (hc : commandOf line = "summary")
    (hb : bucketOf (extract (tokens line) 1 "") (extract (tokens line) 2 "") s.gameReports =
      some bucket) :
    ∃ sorted, processInput env s line = .ok
        { state := s, frames := [],
          written := some (extract (tokens line) 3 "",
            (match sorted with
              | [] => ""
              | e :: _ => e.team_a_name ++ " vs " ++ e.team_b_name ++ "\n") ++
            "Game stats:\n" ++
            "General stats:\n" ++
            String.join ((statsOf Event.game_updates sorted).map
              (fun kv => kv.1 ++ ": " ++ kv.2 ++ "\n")) ++
            (match sorted with
              | [] => "Team A stats:\n"
              | e :: _ => e.team_a_name ++ " stats:\n") ++
            String.join ((statsOf Event.team_a_updates sorted).map
              (fun kv => kv.1 ++ ": " ++ kv.2 ++ "\n")) ++
            (match sorted with
              | [] => "Team B stats:\n"
              | e :: _ => e.team_b_name ++ " stats:\n") ++
            String.join ((statsOf Event.team_b_updates sorted).map
              (fun kv => kv.1 ++ ": " ++ kv.2 ++ "\n")) ++
            ("Game event reports:\n" ++
              String.join (sorted.map (fun e =>
                toString e.time ++ " - " ++ e.name ++ ":\n\n" ++ e.description ++
                  "\n\n")))) } ∧
      sorted.Perm bucket ∧
      sorted.Pairwise (fun a b => a.time ≤ b.time) ∧
      ∀ a b, bucket = [a, b] → b.time < a.time → sorted = [b, a] := by
  have hsorted : (env.sort bucket).Pairwise (fun a b => a.time ≤ b.time) :=
    (hs bucket).2.imp (fun h => not_lt.mp h)
  refine ⟨env.sort bucket, ?_, (hs bucket).1, hsorted, ?_⟩
  · rw [processInput_summary env s line bucket hc hb, ← summaryText_lines]
    rfl
  · intro a b hab hlt
    exact sorted_pair _ a b (hab ▸ (hs bucket).1) hsorted hlt

/-- C6 after `report events.txt` (events timestamped 90 then 45): the summary
written lists the event timestamped 45 before the one timestamped 90. -/
theorem summary_events_sorted_witness :
    processInput (sampleEnv sortByTime) reportedState
        "summary chelsea_arsenal alice out.txt" = .ok
      { state := reportedState, frames := [],
        written := some ("out.txt",
          "chelsea vs arsenal\nGame stats:\nGeneral stats:\nactive: true\n" ++
          "chelsea stats:\ngoals: late\narsenal stats:\nGame event reports:\n" ++
          "45 - early:\n\nearly!\n\n90 - late:\n\nlate!\n\n") } ∧
    ∃ sorted, processInput (sampleEnv sortByTime) reportedState
        "summary chelsea_arsenal alice out.txt" = .ok
        { state := reportedState, frames := [],
          written := some ("out.txt",
            (match sorted with
              | [] => ""
              | e :: _ => e.team_a_name ++ " vs " ++ e.team_b_name ++ "\n") ++
            "Game stats:\n" ++
            "General stats:\n" ++
            String.join ((statsOf Event.game_updates sorted).map
              (fun kv => kv.1 ++ ": " ++ kv.2 ++ "\n")) ++
            (match sorted with
              | [] => "Team A stats:\n"
              | e :: _ => e.team_a_name ++ " stats:\n") ++
            String.join ((statsOf Event.team_a_updates sorted).map
              (fun kv => kv.1 ++ ": " ++ kv.2 ++ "\n")) ++
            (match sorted with
              | [] => "Team B stats:\n"
              | e :: _ => e.team_b_name ++ " stats:\n") ++
            String.join ((statsOf Event.team_b_updates sorted).map
              (fun kv => kv.1 ++ ": " ++ kv.2 ++ "\n")) ++
            ("Game event reports:\n" ++
              String.join (sorted.map (fun e =>
                toString e.time ++ " - " ++ e.name ++ ":\n\n" ++ e.description ++
                  "\n\n")))) } ∧
      sorted.Perm [sampleEvent 90 "late", sampleEvent 45 "early"] ∧
      sorted.Pairwise (fun a b => a.time ≤ b.time) ∧
      ∀ a b, [sampleEvent 90 "late", sampleEvent 45 "early"] = [a, b] → b.time < a.time →
        sorted = [b, a] :=
  ⟨rfl, summary_events_sorted (sampleEnv sortByTime) reportedState
    "summary chelsea_arsenal alice out.txt" [sampleEvent 90 "late", sampleEvent 45 "early"]
    sortByTime_contract rfl rfl⟩

/-- C9: let `join c` run in a state `s` (it allocates the subscription id
`s.subscriptionCounter`), followed by any commands that are neither `join c`
nor `exit c`, none of them throwing. Then `exit c` returns exactly one frame,
the UNSUBSCRIBE frame whose `id` header is the id allocated by that `join c`,
removes `c` from the registry at once, and an `exit c` repeated right after
returns no frame and changes nothing. -/
theorem exit_unsubscribes_latest_join (env : Env) (s s₁ : StompProtocol)
    (joinLine exitLine : String) (between sent : List String)
    (hj : commandOf joinLine = "join") (he : commandOf exitLine = "exit")
    (hsame : extract (tokens exitLine) 1 "" = extract (tokens joinLine) 1 "")
    (hbetween : ∀ l ∈ between, ¬ ((commandOf l = "join" ∨ commandOf l = "exit") ∧
      extract (tokens l) 1 "" = extract (tokens joinLine) 1 ""))
    (hrun : runInputs env s (joinLine :: between) = .ok (s₁, sent)) :
    sent.head? = some (subscribeFrame (extract (tokens joinLine) 1 "")
        s.subscriptionCounter s.receiptCounter) ∧
      ∃ r, processInput env s₁ exitLine = .ok r ∧
        r.frames = [unsubscribeFrame s.subscriptionCounter s₁.receiptCounter] ∧
        verbOf (unsubscribeFrame s.subscriptionCounter s₁.receiptCounter) =
          some "UNSUBSCRIBE" ∧
        headerOf "id" (unsubscribeFrame s.subscriptionCounter s₁.receiptCounter) =
          some (to_string s.subscriptionCounter) ∧
        StdMap.find (extract (tokens exitLine) 1 "") r.state.channelToSubId = none ∧
        processInput env r.state exitLine =
          .ok { state := r.state, frames := [], written := none } := by
  simp only [runInputs, processInput_join env s joinLine hj] at hrun
  split at hrun
  · cases hrun
  · rename_i s₂ fs hr
    simp only [Except.ok.injEq, Prod.mk.injEq] at hrun
    obtain ⟨rfl, rfl⟩ := hrun
    have hfind := find_channel_run env _ s₂ between fs _ hr hbetween
    simp only [StdMap.find_insert_self] at hfind
    rw [← hsame] at hfind
    refine ⟨rfl, _, processInput_exit_active env s₂ exitLine _ he hfind, rfl,
      verbOf_unsubscribeFrame _ _, headerOf_id_unsubscribeFrame _ _,
      StdMap.find_erase_self _ _, ?_⟩
    exact processInput_exit_inactive env _ exitLine he (StdMap.find_erase_self _ _)

/-- C9 on the scenario of the design document: from a fresh protocol,
`join chelsea_arsenal` sends SUBSCRIBE with `id:0`, `join liverpool_city` sends
SUBSCRIBE with `id:1`, and `exit chelsea_arsenal` then sends UNSUBSCRIBE with
`id:0`. -/
theorem exit_unsubscribes_latest_join_witness :
    (runInputs (sampleEnv sortByTime) (StompProtocol.init true)
        ["join chelsea_arsenal", "join liverpool_city", "exit chelsea_arsenal",
         "exit chelsea_arsenal"]).map (fun p => p.2) =
      .ok ["SUBSCRIBE\ndestination:/chelsea_arsenal\nid:0\nreceipt:0\n\n",
           "SUBSCRIBE\ndestination:/liverpool_city\nid:1\nreceipt:1\n\n",
           "UNSUBSCRIBE\nid:0\nreceipt:2\n\n"] ∧
      (["SUBSCRIBE\ndestination:/chelsea_arsenal\nid:0\nreceipt:0\n\n",
        "SUBSCRIBE\ndestination:/liverpool_city\nid:1\nreceipt:1\n\n"].head? =
        some (subscribeFrame "chelsea_arsenal" 0 0) ∧
      ∃ r, processInput (sampleEnv sortByTime)
          { StompProtocol.init true with
            subscriptionCounter := 2, receiptCounter := 2,
            channelToSubId := [("chelsea_arsenal", 0), ("liverpool_city", 1)],
            receiptToCommand := [(0, "Joined channel chelsea_arsenal"),
              (1, "Joined channel liverpool_city")] }
          "exit chelsea_arsenal" = .ok r ∧
        r.frames = [unsubscribeFrame 0 2] ∧
        verbOf (unsubscribeFrame 0 2) = some "UNSUBSCRIBE" ∧
        headerOf "id" (unsubscribeFrame 0 2) = some (to_string 0) ∧
        StdMap.find "chelsea_arsenal" r.state.channelToSubId = none ∧
        processInput (sampleEnv sortByTime) r.state "exit chelsea_arsenal" =
          .ok { state := r.state, frames := [], written := none }) :=
  ⟨rfl, exit_unsubscribes_latest_join (sampleEnv sortByTime) (StompProtocol.init true) _
    "join chelsea_arsenal" "exit chelsea_arsenal" ["join liverpool_city"] _ rfl rfl rfl
    (by
      intro l hl
      rw [List.mem_singleton.mp hl]
      intro h
      exact absurd h.2 (by decide))
    rfl⟩

/-- C13: `exit c` on a channel without an active subscription returns no frame
and leaves the whole state as it was: the subscription registry, the
pending-receipt map, both counters (no receipt id is used up) and the event
store; no file is written. -/
theorem exit_without_subscription_noop (env : Env) (s : StompProtocol) (line : String)
    (hc : commandOf line = "exit")
    (hf : StdMap.find (extract (tokens line) 1 "") s.channelToSubId = none) :
    processInput env s line = .ok { state := s, frames := [], written := none } :=
  processInput_exit_inactive env s line hc hf

/-- C13 at `exit liverpool_city` after `join a`: nothing is returned and the
state, receipt counter included, stays the one left by the join. -/
theorem exit_without_subscription_noop_witness :
    processInput (sampleEnv sortByTime) joinedState "exit liverpool_city" =
      .ok { state := joinedState, frames := [], written := none } :=
  exit_without_subscription_noop (sampleEnv sortByTime) joinedState "exit liverpool_city"
    rfl rfl

/-- C14: in every state, `summary` returns no frame and leaves the state as it
was, so the lookup creates no game and no user bucket; it writes the summary of
the sorted bucket to the named file when the bucket of the game and user
exists, and writes nothing when it does not. -/
theorem summary_reads_only (env : Env) (s : StompProtocol) (line : String)
    (hc : commandOf line = "summary") :
    processInput env s line = .ok
      { state := s, frames := [],
        written :=
          (bucketOf (extract (tokens line) 1 "") (extract (tokens line) 2 "")
            s.gameReports).map
            (fun bucket => (extract (tokens line) 3 "", summaryText (env.sort bucket))) } := by
  unfold commandOf at hc
  have h₁ : ¬ ("summary" = "login") := by decide
  have h₂ : ¬ ("summary" = "join") := by decide
  have h₃ : ¬ ("summary" = "exit") := by decide
  have h₄ : ¬ ("summary" = "logout") := by decide
  have h₅ : ¬ ("summary" = "report") := by decide
  cases hb : bucketOf (extract (tokens line) 1 "") (extract (tokens line) 2 "")
      s.gameReports <;>
    simp [processInput, hc, h₁, h₂, h₃, h₄, h₅, hb]

/-- C14 at a summary of a game nobody reported on: no frame, no file, the
state unchanged. -/
theorem summary_reads_only_witness :
    processInput (sampleEnv sortByTime) reportedState "summary spain_italy alice out.txt" =
      .ok { state := reportedState, frames := [], written := none } :=
  summary_reads_only (sampleEnv sortByTime) reportedState "summary spain_italy alice out.txt"
    rfl

/-- A `RECEIPT` frame whose `receipt-id` header reads as an `int` that is not
pending leaves the whole state as it was, the pending-receipt map and the
continuation flag included, and prints nothing. -/
theorem unknown_receipt_in_range_ignored (env : Env) (s : StompProtocol) (frame : String)
    (d : Decoded) (r : Int) (hd : decode frame = some d) (hc : d.command = "RECEIPT")
    (hr : stoi (header "receipt-id" d.headers) = .ok r)
    (hp : StdMap.find r s.receiptToCommand = none) :
    processServerFrame env s frame = .ok { state := s, console := "" } := by
  have hne₁ : ¬ ("RECEIPT" = "CONNECTED") := by decide
  have hne₂ : ¬ ("RECEIPT" = "ERROR") := by decide
  simp [processServerFrame, hd, hc, hne₁, hne₂, hr, hp]

/-- C16 at its failing input: the `receipt-id` header `99999999999` is a decimal
integer and is not pending (after `join a` only id 0 is), yet the frame is not
ignored: `std::stoi` throws `out_of_range` out of `processServerFrame`, in
every state. The header `7`, which fits an `int` and is not pending either, is
ignored as the claim says. -/
theorem unknown_receipt_out_of_range_throws (env : Env) (s : StompProtocol) :
    StdMap.find 99999999999 joinedState.receiptToCommand = none ∧
      processServerFrame env joinedState "RECEIPT\nreceipt-id:99999999999\n\n" =
        .error .out_of_range ∧
      processServerFrame env s "RECEIPT\nreceipt-id:99999999999\n\n" =
        .error .out_of_range ∧
      processServerFrame env joinedState "RECEIPT\nreceipt-id:7\n\n" =
        .ok { state := joinedState, console := "" } :=
  ⟨rfl, rfl, rfl, rfl⟩

/-- C12: from a freshly constructed protocol, for every sequence of command
lines, the `receipt` headers of the SUBSCRIBE, UNSUBSCRIBE and DISCONNECT frames
sent are, in emission order, the decimal renderings of `0, 1, 2, ...`, so the
receipt ids are strictly increasing and pairwise distinct; and in every state,
a call of `processInput` that returns such a frame has recorded the id in its
`receipt` header as pending when it returns. -/
theorem receipt_ids_strictly_increasing (env : Env) (loggedIn : Bool) (lines : List String) :
    (∃ ids : List Int,
      (receiptFramesOf (framesSent env (StompProtocol.init loggedIn) lines)).map
          (headerOf "receipt") = ids.map (fun i => some (to_string i)) ∧
      ids = (List.range ids.length).map (fun (k : Nat) => (k : Int)) ∧
      ids.Pairwise (fun a b => a < b)) ∧
    ∀ (s : StompProtocol) (line : String) (r : InputResult),
      processInput env s line = .ok r → ∀ f ∈ receiptFramesOf r.frames,
        ∃ id : Int, headerOf "receipt" f = some (to_string id) ∧
          (StdMap.find id r.state.receiptToCommand).isSome = true := by
  constructor
  · refine ⟨(List.range (receiptFramesOf
      (framesSent env (StompProtocol.init loggedIn) lines)).length).map
        (fun (k : Nat) => (k : Int)), ?_, ?_, ?_⟩
    · rw [receipt_ids_from, List.map_map]
      apply List.map_congr_left
      intro k _
      simp [StompProtocol.init]
    · simp
    · rw [List.pairwise_map]
      exact (List.pairwise_lt_range _).imp (fun h => by exact_mod_cast h)
  · intro s line r h f hf
    rcases receipt_step env s line r h with ⟨hnil, -⟩ | ⟨f', hone, hhead, -, hpend⟩
    · rw [hnil] at hf
      cases hf
    · rw [hone, List.mem_singleton] at hf
      subst hf
      exact ⟨s.receiptCounter, hhead, hpend⟩

/-- C15: in every state, for a `MESSAGE` frame whose `user` header `u` is not
the local user name, with `g` the game name derived from the destination
header: when the event codec decodes the body to `e`, the bucket of `(g, u)`
becomes what it was (empty when absent) followed by `e`, every other bucket is
exactly as before, and nothing else in the state changes; when the codec
rejects the body, the state is unchanged. The game name is the part of the
destination after its last `/`, and the destination itself when it holds no
`/`. -/
theorem remote_message_appended (env : Env) (s : StompProtocol) (frame : String)
    (d : Decoded) (hd : decode frame = some d) (hc : d.command = "MESSAGE")
    (hu : header "user" d.headers ≠ s.userName) :
    (∀ e, env.parseEvent d.body = some e →
      ∃ r, processServerFrame env s frame = .ok r ∧
        r.state = { s with gameReports := r.state.gameReports } ∧
        bucketOf (gameNameOf (header "destination" d.headers)) (header "user" d.headers)
            r.state.gameReports =
          some ((bucketOf (gameNameOf (header "destination" d.headers))
            (header "user" d.headers) s.gameReports).getD [] ++ [e]) ∧
        ∀ g' u', ¬ (gameNameOf (header "destination" d.headers) = g' ∧
            header "user" d.headers = u') →
          bucketOf g' u' r.state.gameReports = bucketOf g' u' s.gameReports) ∧
      (env.parseEvent d.body = none →
        processServerFrame env s frame = .ok { state := s, console := "" }) ∧
      (∀ p g : List Char, header "destination" d.headers = String.mk (p ++ '/' :: g) →
        '/' ∉ g → gameNameOf (header "destination" d.headers) = String.mk g) ∧
      ('/' ∉ (header "destination" d.headers).data →
        gameNameOf (header "destination" d.headers) = header "destination" d.headers) := by
  refine ⟨?_, ?_, ?_, ?_⟩
  · intro e he
    refine ⟨_, processServerFrame_message env s frame d e hd hc hu he, rfl, ?_, ?_⟩
    · exact bucketOf_pushEvent_self _ _ _ _
    · intro g' u' hne
      exact bucketOf_pushEvent_other _ _ _ _ _ _ hne
  · exact processServerFrame_message_bad env s frame d hd hc hu
  · intro p g hdest hg
    rw [hdest]
    exact gameNameOf_after_slash p g hg
  · exact gameNameOf_no_slash _

/-- C15 in `alice`'s session after `report events.txt`: a message of `bob` on
`/topic/chelsea_arsenal` with a body the codec decodes opens the bucket of
`(chelsea_arsenal, bob)` with that event and leaves `alice`'s bucket alone; the
same message with a body the codec rejects changes nothing. -/
theorem remote_message_appended_witness :
    processServerFrame (codecEnv sortByTime) reportedState
        "MESSAGE\ndestination:/topic/chelsea_arsenal\nuser:bob\n\ngoal" =
      .ok { state := { reportedState with
              gameReports := [("chelsea_arsenal",
                [("alice", [sampleEvent 90 "late", sampleEvent 45 "early"]),
                 ("bob", [sampleEvent 10 "goal"])])] },
            console := "" } ∧
    processServerFrame (codecEnv sortByTime) reportedState
        "MESSAGE\ndestination:/topic/chelsea_arsenal\nuser:bob\n\nnoise" =
      .ok { state := reportedState, console := "" } ∧
    ((∀ e, (codecEnv sortByTime).parseEvent "goal" = some e →
      ∃ r, processServerFrame (codecEnv sortByTime) reportedState
          "MESSAGE\ndestination:/topic/chelsea_arsenal\nuser:bob\n\ngoal" = .ok r ∧
        r.state = { reportedState with gameReports := r.state.gameReports } ∧
        bucketOf (gameNameOf "/topic/chelsea_arsenal") "bob" r.state.gameReports =
          some ((bucketOf (gameNameOf "/topic/chelsea_arsenal") "bob"
            reportedState.gameReports).getD [] ++ [e]) ∧
        ∀ g' u', ¬ (gameNameOf "/topic/chelsea_arsenal" = g' ∧ "bob" = u') →
          bucketOf g' u' r.state.gameReports = bucketOf g' u' reportedState.gameReports) ∧
      ((codecEnv sortByTime).parseEvent "goal" = none →
        processServerFrame (codecEnv sortByTime) reportedState
          "MESSAGE\ndestination:/topic/chelsea_arsenal\nuser:bob\n\ngoal" =
          .ok { state := reportedState, console := "" }) ∧
      (∀ p g : List Char, "/topic/chelsea_arsenal" = String.mk (p ++ '/' :: g) →
        '/' ∉ g → gameNameOf "/topic/chelsea_arsenal" = String.mk g) ∧
      ('/' ∉ "/topic/chelsea_arsenal".data →
        gameNameOf "/topic/chelsea_arsenal" = "/topic/chelsea_arsenal")) :=
  ⟨rfl, rfl,
    remote_message_appended (codecEnv sortByTime) reportedState
      "MESSAGE\ndestination:/topic/chelsea_arsenal\nuser:bob\n\ngoal"
      { command := "MESSAGE",
        headers := [("destination", "/topic/chelsea_arsenal"), ("user", "bob")],
        body := "goal" } rfl rfl (by decide)⟩

set_option maxRecDepth 100000 in
/-- C20, as stated, fails for a team name that holds a line break: with the
teams `x\ny` and `z` (no `/` in either), `report` stores the events under the
game `x\ny_z`, but the SEND frame it returns carries the destination `/x`, the
header line ending at the line break; the game name `MESSAGE` derives from that
destination is `x`, so a remote event of the game lands under another key than
the local ones. -/
theorem game_key_round_trip_counterexample :
    '/' ∉ lineBreakFile.team_a_name.data ∧ '/' ∉ lineBreakFile.team_b_name.data ∧
      processInput lineBreakEnv aliceState "report linebreak.txt" =
        .ok { state := { aliceState with
                gameReports := [("x\ny_z", [("alice", lineBreakFile.events)])] },
              frames :=
                ["SEND\ndestination:/x\ny_z\n\nuser: alice\nteam a: x\ny\n" ++
                 "team b: z\nevent name: goal\ntime: 10\ngeneral game updates:\n" ++
                 "\tactive: true\nteam a updates:\n\tgoals: goal\nteam b updates:\n" ++
                 "description:\ngoal!\n"],
              written := none } ∧
      (processInput lineBreakEnv aliceState "report linebreak.txt").map
          (fun r => r.frames.map (headerOf "destination")) = .ok [some "/x"] ∧
      gameNameOf "/x" = "x" ∧
      processServerFrame lineBreakEnv aliceState "MESSAGE\ndestination:/x\nuser:bob\n\ngoal" =
        .ok { state := { aliceState with
                gameReports := [("x", [("bob", [sampleEvent 10 "goal"])])] },
              console := "" } :=
  ⟨by decide, by decide, rfl, rfl, rfl, rfl⟩

/-- C20, amended: for team names `a` and `b` without `/`, the game name
`MESSAGE` derives from the destination `/a_b`, and from any `prefix/a_b`, is
`a_b`, the key under which `report` stores the events of the file; a `MESSAGE`
of another user with one of these destinations stores its event under the game
`a_b` as well. When `a` and `b` hold no line break either, `/a_b` is the
destination header of the SEND frames of `report`. -/
theorem game_key_round_trip (a b : String) (ha : '/' ∉ a.data) (hb : '/' ∉ b.data) :
    gameNameOf ("/" ++ a ++ "_" ++ b) = a ++ "_" ++ b ∧
      (∀ p : String, gameNameOf (p ++ "/" ++ a ++ "_" ++ b) = a ++ "_" ++ b) ∧
      (∀ (u : String) (n_e : names_and_events) (e : Event),
        n_e.team_a_name = a → n_e.team_b_name = b → '\n' ∉ a.data → '\n' ∉ b.data →
        headerOf "destination" (sendFrame u n_e e) = some ("/" ++ (a ++ "_" ++ b))) ∧
      (∀ (env : Env) (s : StompProtocol) (line : String) (n_e : names_and_events),
        commandOf line = "report" →
        env.parseEventsFile (extract (tokens line) 1 "") = some n_e →
        n_e.team_a_name = a → n_e.team_b_name = b →
        ∃ r, processInput env s line = .ok r ∧
          (bucketOf (a ++ "_" ++ b) s.userName r.state.gameReports).getD [] =
            (bucketOf (a ++ "_" ++ b) s.userName s.gameReports).getD [] ++ n_e.events) ∧
      (∀ (env : Env) (s : StompProtocol) (frame : String) (d : Decoded) (e : Event)
        (p : String), decode frame = some d → d.command = "MESSAGE" →
        header "destination" d.headers = p ++ "/" ++ a ++ "_" ++ b →
        header "user" d.headers ≠ s.userName → env.parseEvent d.body = some e →
        ∃ r, processServerFrame env s frame = .ok r ∧
          bucketOf (a ++ "_" ++ b) (header "user" d.headers) r.state.gameReports =
            some ((bucketOf (a ++ "_" ++ b) (header "user" d.headers)
              s.gameReports).getD [] ++ [e])) := by
  refine ⟨?_, fun p => gameNameOf_gameKey p a b ha hb, ?_, ?_, ?_⟩
  · have h := gameNameOf_gameKey "" a b ha hb
    rwa [show ("" : String) ++ "/" = "/" from rfl] at h
  · intro u n_e e hna hnb hla hlb
    subst hna hnb
    exact headerOf_destination_sendFrame u n_e e hla hlb
  · intro env s line n_e hc hf hna hnb
    subst hna hnb
    exact ⟨_, processInput_report env s line n_e hc hf, reportLoop_bucket _ _ _ _ _ _⟩
  · intro env s frame d e p hd hc hdest hu he
    refine ⟨_, processServerFrame_message env s frame d e hd hc hu he, ?_⟩
    rw [hdest, gameNameOf_gameKey p a b ha hb]
    exact bucketOf_pushEvent_self _ _ _ _

/-- The amended C20 for `chelsea` against `arsenal`. -/
theorem game_key_round_trip_witness :
    gameNameOf ("/" ++ "chelsea" ++ "_" ++ "arsenal") = "chelsea" ++ "_" ++ "arsenal" ∧
      (∀ p : String,
        gameNameOf (p ++ "/" ++ "chelsea" ++ "_" ++ "arsenal") = "chelsea" ++ "_" ++ "arsenal") ∧
      (∀ (u : String) (n_e : names_and_events) (e : Event),
        n_e.team_a_name = "chelsea" → n_e.team_b_name = "arsenal" →
        '\n' ∉ "chelsea".data → '\n' ∉ "arsenal".data →
        headerOf "destination" (sendFrame u n_e e) =
          some ("/" ++ ("chelsea" ++ "_" ++ "arsenal"))) ∧
      (∀ (env : Env) (s : StompProtocol) (line : String) (n_e : names_and_events),
        commandOf line = "report" →
        env.parseEventsFile (extract (tokens line) 1 "") = some n_e →
        n_e.team_a_name = "chelsea" → n_e.team_b_name = "arsenal" →
        ∃ r, processInput env s line = .ok r ∧
          (bucketOf ("chelsea" ++ "_" ++ "arsenal") s.userName r.state.gameReports).getD [] =
            (bucketOf ("chelsea" ++ "_" ++ "arsenal") s.userName s.gameReports).getD [] ++
              n_e.events) ∧
      (∀ (env : Env) (s : StompProtocol) (frame : String) (d : Decoded) (e : Event)
        (p : String), decode frame = some d → d.command = "MESSAGE" →
        header "destination" d.headers = p ++ "/" ++ "chelsea" ++ "_" ++ "arsenal" →
        header "user" d.headers ≠ s.userName → env.parseEvent d.body = some e →
        ∃ r, processServerFrame env s frame = .ok r ∧
          bucketOf ("chelsea" ++ "_" ++ "arsenal") (header "user" d.headers)
              r.state.gameReports =
            some ((bucketOf ("chelsea" ++ "_" ++ "arsenal") (header "user" d.headers)
              s.gameReports).getD [] ++ [e])) :=
  game_key_round_trip "chelsea" "arsenal" (by decide) (by decide)

/-- C11: when the bucket named by `summary` exists, the text written has the
three stats blocks of the accumulators built over the timestamp-sorted copy
`env.sort bucket` of the bucket. For each of the three update mappings the
block is one line per pair of the accumulator, and the accumulator lists its
keys in strictly ascending order, each once; a key is listed exactly when it
occurs in the mapping of some event; its value is the last one written for it
over the whole sorted sequence, that is the value it has in the last event, in
sorted order, whose mapping holds the key. -/
theorem summary_stats_last_write_wins (env : Env) (s : StompProtocol) (line : String)
    (bucket : List Event) (hs : SortContract env.sort)
    (hc : commandOf line = "summary")
    (hb : bucketOf (extract (tokens line) 1 "") (extract (tokens line) 2 "") s.gameReports =
      some bucket) :
    processInput env s line = .ok
        { state := s, frames := [],
          written := some (extract (tokens line) 3 "", summaryText (env.sort bucket)) } ∧
      (env.sort bucket).Perm bucket ∧
      (env.sort bucket).Pairwise (fun a b => a.time ≤ b.time) ∧
      summaryText (env.sort bucket) =
        (match env.sort bucket with
          | [] => ""
          | e :: _ => e.team_a_name ++ " vs " ++ e.team_b_name ++ "\n") ++
        "Game stats:\n" ++
        "General stats:\n" ++ statLines (statsOf Event.game_updates (env.sort bucket)) ++
        (match env.sort bucket with
          | [] => "Team A stats:\n"
          | e :: _ => e.team_a_name ++ " stats:\n") ++
        statLines (statsOf Event.team_a_updates (env.sort bucket)) ++
        (match env.sort bucket with
          | [] => "Team B stats:\n"
          | e :: _ => e.team_b_name ++ " stats:\n") ++
        statLines (statsOf Event.team_b_updates (env.sort bucket)) ++
        eventReports (env.sort bucket) ∧
      ∀ updates : Event → List (String × String),
        statLines (statsOf updates (env.sort bucket)) =
          String.join ((statsOf updates (env.sort bucket)).map
            (fun kv => kv.1 ++ ": " ++ kv.2 ++ "\n")) ∧
        KeysAscending (statsOf updates (env.sort bucket)) ∧
        ((statsOf updates (env.sort bucket)).map Prod.fst).Nodup ∧
        (∀ k, k ∈ (statsOf updates (env.sort bucket)).map Prod.fst ↔
          ∃ e ∈ env.sort bucket, k ∈ (updates e).map Prod.fst) ∧
        (∀ k, StdMap.find k (statsOf updates (env.sort bucket)) =
          lastWrite k ((env.sort bucket).flatMap updates)) ∧
        (∀ k v before e after, env.sort bucket = before ++ e :: after →
          (k, v) ∈ updates e → ((updates e).map Prod.fst).Nodup →
          (∀ e' ∈ after, k ∉ (updates e').map Prod.fst) →
          (k, v) ∈ statsOf updates (env.sort bucket)) := by
  have hasc : ∀ updates : Event → List (String × String),
      KeysAscending (statsOf updates (env.sort bucket)) := fun updates =>
    statsFold_ascending updates _ [] (by simp [KeysAscending])
  refine ⟨?_, (hs bucket).1, (hs bucket).2.imp (fun h => not_lt.mp h),
    summaryText_layout _, ?_⟩
  · rw [processInput_summary env s line bucket hc hb]
    rfl
  · intro updates
    refine ⟨statLines_eq_join _, hasc updates, keys_ascending_nodup _ (hasc updates),
      fun k => keys_statsOf k updates _, fun k => find_statsOf k updates _, ?_⟩
    intro k v before e after hsplit hm hn ha
    apply StdMap.mem_of_find
    rw [find_statsOf, hsplit]
    exact lastWrite_last_event k v updates before after e hm hn ha

/-- C11 after `report events.txt` (events timestamped 90 then 45, both writing
the key `goals` for team A): the summary is built over the sorted copy, 45 then
90, and the team A block lists `goals` once, with the value written by the
event timestamped 90. -/
theorem summary_stats_last_write_wins_witness :
    statsOf Event.team_a_updates (sortByTime reportedBucket) = [("goals", "late")] ∧
    (processInput (sampleEnv sortByTime) reportedState
        "summary chelsea_arsenal alice out.txt" = .ok
        { state := reportedState, frames := [],
          written := some ("out.txt", summaryText (sortByTime reportedBucket)) } ∧
      (sortByTime reportedBucket).Perm reportedBucket ∧
      (sortByTime reportedBucket).Pairwise (fun a b => a.time ≤ b.time) ∧
      summaryText (sortByTime reportedBucket) =
        (match (sortByTime reportedBucket) with
          | [] => ""
          | e :: _ => e.team_a_name ++ " vs " ++ e.team_b_name ++ "\n") ++
        "Game stats:\n" ++
        "General stats:\n" ++ statLines (statsOf Event.game_updates (sortByTime reportedBucket)) ++
        (match (sortByTime reportedBucket) with
          | [] => "Team A stats:\n"
          | e :: _ => e.team_a_name ++ " stats:\n") ++
        statLines (statsOf Event.team_a_updates (sortByTime reportedBucket)) ++
        (match (sortByTime reportedBucket) with
          | [] => "Team B stats:\n"
          | e :: _ => e.team_b_name ++ " stats:\n") ++
        statLines (statsOf Event.team_b_updates (sortByTime reportedBucket)) ++
        eventReports (sortByTime reportedBucket) ∧
      ∀ updates : Event → List (String × String),
        statLines (statsOf updates (sortByTime reportedBucket)) =
          String.join ((statsOf updates (sortByTime reportedBucket)).map
            (fun kv => kv.1 ++ ": " ++ kv.2 ++ "\n")) ∧
        KeysAscending (statsOf updates (sortByTime reportedBucket)) ∧
        ((statsOf updates (sortByTime reportedBucket)).map Prod.fst).Nodup ∧
        (∀ k, k ∈ (statsOf updates (sortByTime reportedBucket)).map Prod.fst ↔
          ∃ e ∈ (sortByTime reportedBucket), k ∈ (updates e).map Prod.fst) ∧
        (∀ k, StdMap.find k (statsOf updates (sortByTime reportedBucket)) =
          lastWrite k ((sortByTime reportedBucket).flatMap updates)) ∧
        (∀ k v before e after, (sortByTime reportedBucket) = before ++ e :: after →
          (k, v) ∈ updates e → ((updates e).map Prod.fst).Nodup →
          (∀ e' ∈ after, k ∉ (updates e').map Prod.fst) →
          (k, v) ∈ statsOf updates (sortByTime reportedBucket))) :=
  ⟨rfl, summary_stats_last_write_wins (sampleEnv sortByTime) reportedState
    "summary chelsea_arsenal alice out.txt" reportedBucket
    sortByTime_contract rfl rfl⟩

/-- C19: in every state reached from a freshly constructed protocol by calls of
`processInput` and `processServerFrame` in any order, every bucket present in
the event store holds at least one event. Hence, for a `std::sort` that meets
its contract, whenever `summary` writes a text in such a state, the sorted copy
has a first event and the text starts with the line `<teamA> vs <teamB>` of
that event and names its blocks `<teamA> stats:` and `<teamB> stats:` after it:
the branches without a header and with the fallback names are not taken. -/
theorem reachable_buckets_nonempty (env : Env) (loggedIn : Bool) (calls : List Call)
    (s : StompProtocol) (hrun : runCalls env (StompProtocol.init loggedIn) calls = .ok s) :
    (∀ g u bucket, bucketOf g u s.gameReports = some bucket → bucket ≠ []) ∧
      (SortContract env.sort → ∀ line path text, commandOf line = "summary" →
        processInput env s line =
          .ok { state := s, frames := [], written := some (path, text) } →
        ∃ first rest,
          text =
            (first.team_a_name ++ " vs " ++ first.team_b_name ++ "\n") ++
            "Game stats:\n" ++
            "General stats:\n" ++ statLines (statsOf Event.game_updates (first :: rest)) ++
            (first.team_a_name ++ " stats:\n") ++
            statLines (statsOf Event.team_a_updates (first :: rest)) ++
            (first.team_b_name ++ " stats:\n") ++
            statLines (statsOf Event.team_b_updates (first :: rest)) ++
            eventReports (first :: rest)) := by
  have hinv : BucketsNonEmpty s.gameReports :=
    runCalls_nonEmpty env _ s calls hrun (by
      intro g u bucket hb
      simp [StompProtocol.init, bucketOf, StdMap.find] at hb)
  refine ⟨hinv, ?_⟩
  intro hs line path text hc hw
  rw [processInput_summary_any env s line hc] at hw
  cases hb : bucketOf (extract (tokens line) 1 "") (extract (tokens line) 2 "")
      s.gameReports with
  | none => simp [hb] at hw
  | some bucket =>
    simp only [hb, Option.map_some', Except.ok.injEq, InputResult.mk.injEq, true_and,
      Option.some.injEq, Prod.mk.injEq] at hw
    obtain ⟨-, rfl⟩ := hw
    have hne : bucket ≠ [] := hinv _ _ bucket hb
    cases hsort : env.sort bucket with
    | nil =>
      have hp := (hs bucket).1
      rw [hsort] at hp
      exact absurd hp.symm.eq_nil hne
    | cons first rest => exact ⟨first, rest, summaryText_layout _⟩

/-- C19 on a session in which `alice` reports two events and a report of `bob`
arrives: both buckets are non-empty, and a summary written then starts with the
header of the first sorted event. -/
theorem reachable_buckets_nonempty_witness :
    runCalls (codecEnv sortByTime) (StompProtocol.init true) sampleCalls =
        .ok sampleCallsState ∧
    processInput (codecEnv sortByTime) sampleCallsState "summary chelsea_arsenal bob out.txt" =
      .ok { state := sampleCallsState, frames := [],
            written := some ("out.txt",
              "chelsea vs arsenal\nGame stats:\nGeneral stats:\nactive: true\n" ++
              "chelsea stats:\ngoals: goal\narsenal stats:\nGame event reports:\n" ++
              "10 - goal:\n\ngoal!\n\n") } ∧
    ((∀ g u bucket, bucketOf g u sampleCallsState.gameReports = some bucket → bucket ≠ []) ∧
      (SortContract (codecEnv sortByTime).sort → ∀ line path text,
        commandOf line = "summary" →
        processInput (codecEnv sortByTime) sampleCallsState line =
          .ok { state := sampleCallsState, frames := [], written := some (path, text) } →
        ∃ first rest,
          text =
            (first.team_a_name ++ " vs " ++ first.team_b_name ++ "\n") ++
            "Game stats:\n" ++
            "General stats:\n" ++ statLines (statsOf Event.game_updates (first :: rest)) ++
            (first.team_a_name ++ " stats:\n") ++
            statLines (statsOf Event.team_a_updates (first :: rest)) ++
            (first.team_b_name ++ " stats:\n") ++
            statLines (statsOf Event.team_b_updates (first :: rest)) ++
            eventReports (first :: rest))) :=
  ⟨rfl, rfl, reachable_buckets_nonempty (codecEnv sortByTime) true sampleCalls
    sampleCallsState rfl⟩

/-- C17: the first line is the verb; the header lines that follow, up to the
first blank line (a line that is empty or, with CRLF line ends, holds only a
carriage return), are applied in order: a line `key:value` (split at its first
colon, later colons staying in the value) sets `headers[key] = value`, a line
without a colon sets nothing and leaves the other headers alone; what follows
the blank line is the body, unchanged. When no blank line comes, every line is
a header line, the last one also when no line break follows it, and the body is
empty; a frame that is the verb line alone has no header and an empty body.
Every frame that is not empty has one of these shapes (`frame_shapes`,
`header_section_shapes`). -/
theorem decode_header_section (verb body : List Char) (ls : List HeaderLine)
    (last : HeaderLine) (hv : '\n' ∉ verb) (hls : ∀ l ∈ ls, l.wellFormed = true)
    (hlast : last.wellFormed = true) :
    decode (String.mk (verb ++ '\n' :: (headerSection ls ++ '\n' :: body))) =
        some { command := String.mk verb, headers := headersOfLines ls,
               body := String.mk body } ∧
      decode (String.mk (verb ++ '\n' :: (headerSection ls ++ '\r' :: '\n' :: body))) =
        some { command := String.mk verb, headers := headersOfLines ls,
               body := String.mk body } ∧
      decode (String.mk (verb ++ '\n' :: headerSection ls)) =
        some { command := String.mk verb, headers := headersOfLines ls, body := "" } ∧
      decode (String.mk (verb ++ '\n' :: (headerSection ls ++ last.text))) =
        some { command := String.mk verb, headers := headersOfLines (ls ++ [last]),
               body := "" } ∧
      decode (String.mk (verb ++ '\n' :: (headerSection ls ++ ['\r']))) =
        some { command := String.mk verb, headers := headersOfLines ls, body := "" } ∧
      (verb ≠ [] → decode (String.mk verb) =
        some { command := String.mk verb, headers := [], body := "" }) := by
  refine ⟨?_, ?_, ?_, ?_, ?_, fun hne => decode_verb_only verb hv hne⟩
  · rw [decode_frame verb _ hv, headerLoop_section ls _ [] hls, headerLoop_blank]
    rfl
  · rw [decode_frame verb _ hv, headerLoop_section ls _ [] hls, headerLoop_cr]
    rfl
  · have h := headerLoop_section ls [] [] hls
    rw [List.append_nil] at h
    rw [decode_frame verb _ hv, h]
    rfl
  · obtain ⟨hnl, hne, hcr⟩ := headerLine_facts last hlast
    have hloop : headerLoop last.text.length last.text
        (ls.foldl (fun headers l => l.apply headers) []) =
        (headersOfLines (ls ++ [last]), []) := by
      cases hl : last.text with
      | nil => exact absurd hl hne
      | cons c cs =>
        have hrl := readLine_no_newline last.text hnl
        rw [hl] at hrl hcr
        simp only [List.length_cons, headerLoop, getline, hrl]
        rw [if_neg (by simp [hcr])]
        rw [← hl, addHeader_headerLine last hlast]
        cases cs <;> simp [headerLoop, getline, headersOfLines]
    rw [decode_frame verb _ hv, headerLoop_section ls _ [] hls, hloop]
  · have hloop : ∀ h : List (String × String),
        headerLoop ['\r'].length ['\r'] h = (h, []) := by
      intro h
      simp [headerLoop, getline, readLine]
    rw [decode_frame verb _ hv, headerLoop_section ls _ [] hls, hloop]
    rfl

/-- C17 on a frame with three header lines, one of them without a colon and one
with a colon in its value, on a further last line `k:v`, and on the body
`body\nmore\n`. -/
theorem decode_header_section_witness :
    decode "MESSAGE\ndestination:/topic/a_b\nnocolon\nx:y:z\n\nbody\nmore\n" =
        some { command := "MESSAGE",
               headers := [("destination", "/topic/a_b"), ("x", "y:z")],
               body := "body\nmore\n" } ∧
    (decode (String.mk ("MESSAGE".data ++ '\n' ::
          (headerSection sampleLines ++ '\n' :: "body\nmore\n".data))) =
        some { command := String.mk "MESSAGE".data, headers := headersOfLines sampleLines,
               body := String.mk "body\nmore\n".data } ∧
      decode (String.mk ("MESSAGE".data ++ '\n' ::
          (headerSection sampleLines ++ '\r' :: '\n' :: "body\nmore\n".data))) =
        some { command := String.mk "MESSAGE".data, headers := headersOfLines sampleLines,
               body := String.mk "body\nmore\n".data } ∧
      decode (String.mk ("MESSAGE".data ++ '\n' :: headerSection sampleLines)) =
        some { command := String.mk "MESSAGE".data, headers := headersOfLines sampleLines,
               body := "" } ∧
      decode (String.mk ("MESSAGE".data ++ '\n' ::
          (headerSection sampleLines ++ (HeaderLine.pair "k".data "v".data).text))) =
        some { command := String.mk "MESSAGE".data,
               headers := headersOfLines (sampleLines ++ [HeaderLine.pair "k".data "v".data]),
               body := "" } ∧
      decode (String.mk ("MESSAGE".data ++ '\n' :: (headerSection sampleLines ++ ['\r']))) =
        some { command := String.mk "MESSAGE".data, headers := headersOfLines sampleLines,
               body := "" } ∧
      ("MESSAGE".data ≠ [] → decode (String.mk "MESSAGE".data) =
        some { command := String.mk "MESSAGE".data, headers := [], body := "" })) :=
  ⟨rfl, decode_header_section "MESSAGE".data "body\nmore\n".data sampleLines
    (HeaderLine.pair "k".data "v".data) (by decide) (by decide) (by decide)⟩

end Stomp
